import Mathlib

/-!
A verification development for the `combinestacks` repository.

The repository has two stack-trace pipelines:

* the forked `panicparse` `stack` package (scanner `scanningState.scan`,
  driver `parseDump` / `ParseDump`, helpers `parseFunc`, `parseFile`,
  `atou`, `trimLeftSpace`), modelled in namespace `stack`;
* the simpler line-regex parser and SHA-256 duplicate grouping in
  `combinestacks.go` (`parse`, `hash`, `hashFrame`, `writeAggregated`),
  modelled in namespace `cs`.

Byte strings are modelled as `List Char` (all inputs of interest are ASCII,
where Go's byte-wise regexp matching and rune-wise matching agree).
Go's `regexp` package promises the match a backtracking search would find:
leftmost position first, alternatives in written order, greedy quantifiers.
The small engine below (`Re`) implements exactly those semantics; every
quantifier in the repository's patterns ranges over a single-character
class, so repetition is implemented by trying the longest run first.
-/

set_option maxRecDepth 1000000

instance {ε α : Type} [DecidableEq ε] [DecidableEq α] : DecidableEq (Except ε α) := fun a b =>
  match a, b with
  | .ok x, .ok y => if h : x = y then .isTrue (by rw [h]) else .isFalse (by simp [h])
  | .error e, .error f => if h : e = f then .isTrue (by rw [h]) else .isFalse (by simp [h])
  | .ok _, .error _ => .isFalse (by simp)
  | .error _, .ok _ => .isFalse (by simp)

/-! ## Character-list helpers -/

/-- The last element check used to model `bytes.HasSuffix(line, lf)`. -/
def endsWith (l suf : List Char) : Bool := suf.isSuffixOf l

/-- Go `bytes.TrimSpace` restricted to ASCII white space (sufficient for the
inputs in scope; the trimmed text only ever lands in error payloads). -/
def isSpaceAscii (c : Char) : Bool :=
  c = ' ' ∨ c = '\t' ∨ c = '\n' ∨ c = '\x0b' ∨ c = '\x0c' ∨ c = '\r'

def trimSpaceBytes (l : List Char) : List Char :=
  ((l.dropWhile isSpaceAscii).reverse.dropWhile isSpaceAscii).reverse

/-- `bytes.Split(s, commaSpace)`: split on each non-overlapping `", "`,
left to right.  `bytes.Split` of an empty slice yields one empty piece. -/
def splitCommaSpace : List Char → List Char → List (List Char)
  | [], acc => [acc.reverse]
  | ',' :: ' ' :: rest, acc => acc.reverse :: splitCommaSpace rest []
  | c :: rest, acc => splitCommaSpace rest (c :: acc)

/-! ## A tiny regexp engine with Go (leftmost-first, greedy) semantics -/

inductive Re where
  | eps
  | eos
  | lit (s : List Char)
  | cls (p : Char → Bool)
  | cat (a b : Re)
  | alt (a b : Re)
  | star (p : Char → Bool)
  | plus (p : Char → Bool)
  | grp (n : Nat) (r : Re)

/-- Captured groups, most recent first. -/
abbrev Caps := List (Nat × List Char)

def countWhile (p : Char → Bool) : List Char → Nat
  | [] => 0
  | c :: rest => if p c then countWhile p rest + 1 else 0

/-- Greedy single-class repetition: try consuming `n` characters first,
backtracking one character at a time down to zero. -/
def tryLens (s : List Char) (cs : Caps) (k : List Char → Caps → Option Caps) :
    Nat → Option Caps
  | 0 => k s cs
  | n + 1 =>
    match k (s.drop (n + 1)) cs with
    | some r => some r
    | none => tryLens s cs k n

/-- Backtracking matcher in continuation style.  `k` receives the remaining
input and the captures accumulated so far. -/
def Re.mtch : Re → List Char → Caps → (List Char → Caps → Option Caps) → Option Caps
  | .eps, s, cs, k => k s cs
  | .eos, s, cs, k => if s.isEmpty then k s cs else none
  | .lit l, s, cs, k => if s.take l.length = l then k (s.drop l.length) cs else none
  | .cls p, s, cs, k =>
    match s with
    | [] => none
    | c :: rest => if p c then k rest cs else none
  | .cat a b, s, cs, k => a.mtch s cs (fun s2 cs2 => b.mtch s2 cs2 k)
  | .alt a b, s, cs, k =>
    match a.mtch s cs k with
    | some r => some r
    | none => b.mtch s cs k
  | .star p, s, cs, k => tryLens s cs k (countWhile p s)
  | .plus p, s, cs, k =>
    match s with
    | [] => none
    | c :: rest => if p c then tryLens rest cs k (countWhile p rest) else none
  | .grp n r, s, cs, k =>
    r.mtch s cs (fun s2 cs2 => k s2 ((n, s.take (s.length - s2.length)) :: cs2))

/-- Match anchored at the start of `s` (every `stack` package pattern begins
with `^`; trailing input is allowed unless the pattern ends in `.eos`). -/
def Re.amatch (r : Re) (s : List Char) : Option Caps :=
  r.mtch s [] (fun _ cs => some cs)

/-- Unanchored leftmost search, as `regexp.FindSubmatch` performs for the
unanchored `combinestacks.go` patterns. -/
def Re.search : Re → List Char → Option Caps
  | r, s =>
    match r.amatch s with
    | some cs => some cs
    | none =>
      match s with
      | [] => none
      | _ :: rest => r.search rest

/-- Whether group number `n` occurs anywhere in a pattern. -/
def Re.grpHas : Re → Nat → Bool
  | .eps, _ => false
  | .eos, _ => false
  | .lit _, _ => false
  | .cls _, _ => false
  | .cat a b, n => a.grpHas n || b.grpHas n
  | .alt a b, n => a.grpHas n || b.grpHas n
  | .star _, _ => false
  | .plus _, _ => false
  | .grp m r, n => (m = n) || r.grpHas n

/-- The text captured by group `n` (empty when the group did not
participate, matching Go's behaviour for all uses in the repository). -/
def capGet (cs : Caps) (n : Nat) : List Char :=
  match cs.find? (fun x => x.1 = n) with
  | some x => x.2
  | none => []

def isDigit (c : Char) : Bool := '0' ≤ c ∧ c ≤ '9'

def isHexLower (c : Char) : Bool := isDigit c ∨ ('a' ≤ c ∧ c ≤ 'f')

/-- Go regexp `.`: any character except newline. -/
def isDot (c : Char) : Bool := c ≠ '\n'

/-- Go regexp `\s`: `[\t\n\f\r ]`. -/
def isSpaceRe (c : Char) : Bool :=
  c = '\t' ∨ c = '\n' ∨ c = '\x0c' ∨ c = '\r' ∨ c = ' '

def isSpaceTab (c : Char) : Bool := c = ' ' ∨ c = '\t'

/-! ## Models of the Go standard-library helpers used by the parsers -/

/-- `strconv.underscoreOK` for an unsigned base-0 literal: every underscore
must separate successive digits or follow a base prefix. -/
def underscoreOK (s : List Char) : Bool :=
  let rec go : List Char → Char → Bool → Bool
    | [], saw, _ => saw ≠ '_'
    | c :: rest, saw, hex =>
      if isDigit c ∨ (hex ∧ 'a' ≤ c.toLower ∧ c.toLower ≤ 'f') then go rest '0' hex
      else if c = '_' then (saw = '0' && go rest '_' hex)
      else if saw = '_' then false
      else go rest '!' hex
  match s with
  | '0' :: b :: rest =>
    if b.toLower = 'b' ∨ b.toLower = 'o' ∨ b.toLower = 'x' then
      go rest '0' (b.toLower = 'x')
    else go ('0' :: b :: rest) '^' false
  | _ => go s '^' false

def digitVal (c : Char) : Option Nat :=
  if isDigit c then some (c.toNat - '0'.toNat)
  else if 'a' ≤ c ∧ c ≤ 'z' then some (c.toNat - 'a'.toNat + 10)
  else if 'A' ≤ c ∧ c ≤ 'Z' then some (c.toNat - 'A'.toNat + 10)
  else none

def digitsVal (base : Nat) : List Char → Nat → Option Nat
  | [], acc => some acc
  | '_' :: rest, acc => digitsVal base rest acc
  | c :: rest, acc =>
    match digitVal c with
    | some d => if d < base then digitsVal base rest (acc * base + d) else none
    | none => none

/-- `strconv.ParseUint(s, 0, 64)`: no sign, base chosen by prefix (`0x`/`0X`
hex, `0b`/`0B` binary, `0o`/`0O` octal, a leading `0` octal, else decimal),
underscores allowed between digits, result must fit in 64 bits. -/
def parseUint0 (s : List Char) : Option Nat :=
  if s.isEmpty then none
  else if ¬ underscoreOK s then none
  else
    let (base, digits) :=
      match s with
      | '0' :: b :: rest =>
        if b = 'x' ∨ b = 'X' then (16, rest)
        else if b = 'b' ∨ b = 'B' then (2, rest)
        else if b = 'o' ∨ b = 'O' then (8, rest)
        else (8, b :: rest)
      | _ => (10, s)
    if (digits.filter (fun c => c ≠ '_')).isEmpty then none
    else
      match digitsVal base digits 0 with
      | some v => if v < 2 ^ 64 then some v else none
      | none => none

/-- `strconv.Itoa` for the non-negative values produced by the parsers. -/
def itoa (n : Nat) : List Char := Nat.toDigits 10 n

namespace stack

/-- `atou` from the `stack` package, with `strconv.IntSize = 64` (the
repository is built for a 64-bit target, see the Dockerfile): only inputs
of 1 to 18 decimal digits are accepted. -/
def atou (s : List Char) : Option Nat :=
  if 0 < s.length ∧ s.length < 19 then
    let rec go : List Char → Nat → Option Nat
      | [], n => some n
      | ch :: rest, n =>
        if isDigit ch then go rest (n * 10 + (ch.toNat - '0'.toNat)) else none
    go s 0
  else none

/-- `trimLeftSpace`: the faster equivalent of `bytes.TrimLeft(s, "\t ")`. -/
def trimLeftSpace (s : List Char) : List Char :=
  s.dropWhile (fun ch => ch = '\t' ∨ ch = ' ')

/-! ### The `stack` package byte constants -/

def lockedToThread : List Char := "locked to thread".data
def framesElided : List Char := "...additional frames elided...".data
def raceHeaderFooter : List Char := "==================".data
def raceHeader : List Char := "WARNING: DATA RACE".data
def crlf : List Char := "\r\n".data
def lf : List Char := "\n".data
def writeCap : List Char := "Write".data
def writeLow : List Char := "write".data
def threeDots : List Char := "...".data

/-! ### The `stack` package regexps, as `Re` syntax trees

Each definition transcribes the corresponding `regexp.MustCompile` pattern;
group numbers follow the pattern's parenthesis order. -/

/-- The part of `reRoutineHeader` after the leading-whitespace group. -/
def reRoutineHeaderTail : Re :=
  .cat (.lit "goroutine ".data)
    (.cat (.grp 2 (.plus isDigit))
      (.cat (.lit " [".data)
        (.cat (.grp 3 (.plus (fun c => c ≠ ']')))
          (.cat (.lit "]:".data) .eos))))

/-- `^([ \t]*)goroutine (\d+) \[([^\]]+)\]\:$` -/
def reRoutineHeader : Re :=
  .cat (.grp 1 (.star isSpaceTab)) reRoutineHeaderTail

/-- `^(\d+) minutes$` -/
def reMinutes : Re :=
  .cat (.grp 1 (.plus isDigit)) (.cat (.lit " minutes".data) .eos)

/-- `^(?:\t| +)goroutine running on other thread; stack unavailable` -/
def reUnavail : Re :=
  .cat (.alt (.lit "\t".data) (.plus (fun c => c = ' ')))
    (.lit "goroutine running on other thread; stack unavailable".data)

/-- `^(?:\t| +)(\?\?|\<autogenerated\>|.+\.(?:c|go|s))\:(\d+)(?:| \+0x[0-9a-f]+)(?:| fp=0x[0-9a-f]+ sp=0x[0-9a-f]+(?:| pc=0x[0-9a-f]+))$` -/
def reFile : Re :=
  .cat (.alt (.lit "\t".data) (.plus (fun c => c = ' ')))
    (.cat (.grp 1 (.alt (.lit "??".data)
        (.alt (.lit "<autogenerated>".data)
          (.cat (.plus isDot)
            (.cat (.lit ".".data)
              (.alt (.lit "c".data) (.alt (.lit "go".data) (.lit "s".data))))))))
      (.cat (.lit ":".data)
        (.cat (.grp 2 (.plus isDigit))
          (.cat (.alt .eps (.cat (.lit " +0x".data) (.plus isHexLower)))
            (.cat (.alt .eps
                (.cat (.lit " fp=0x".data)
                  (.cat (.plus isHexLower)
                    (.cat (.lit " sp=0x".data)
                      (.cat (.plus isHexLower)
                        (.alt .eps (.cat (.lit " pc=0x".data) (.plus isHexLower))))))))
              .eos)))))

/-- `^created by (.+)$` -/
def reCreated : Re :=
  .cat (.lit "created by ".data) (.cat (.grp 1 (.plus isDot)) .eos)

/-- `^(.+)\((.*)\)$` -/
def reFunc : Re :=
  .cat (.grp 1 (.plus isDot))
    (.cat (.lit "(".data)
      (.cat (.grp 2 (.star isDot)) (.cat (.lit ")".data) .eos)))

/-- `^(Read|Write) at (0x[0-9a-f]+) by goroutine (\d+):$` -/
def reRaceOperationHeader : Re :=
  .cat (.grp 1 (.alt (.lit "Read".data) (.lit "Write".data)))
    (.cat (.lit " at ".data)
      (.cat (.grp 2 (.cat (.lit "0x".data) (.plus isHexLower)))
        (.cat (.lit " by goroutine ".data)
          (.cat (.grp 3 (.plus isDigit)) (.cat (.lit ":".data) .eos)))))

/-- `^Previous (read|write) at (0x[0-9a-f]+) by goroutine (\d+):$` -/
def reRacePreviousOperationHeader : Re :=
  .cat (.lit "Previous ".data)
    (.cat (.grp 1 (.alt (.lit "read".data) (.lit "write".data)))
      (.cat (.lit " at ".data)
        (.cat (.grp 2 (.cat (.lit "0x".data) (.plus isHexLower)))
          (.cat (.lit " by goroutine ".data)
            (.cat (.grp 3 (.plus isDigit)) (.cat (.lit ":".data) .eos))))))

/-- `^Goroutine (\d+) \((running|finished)\) created at:$` -/
def reRaceGoroutine : Re :=
  .cat (.lit "Goroutine ".data)
    (.cat (.grp 1 (.plus isDigit))
      (.cat (.lit " (".data)
        (.cat (.grp 2 (.alt (.lit "running".data) (.lit "finished".data)))
          (.cat (.lit ") created at:".data) .eos))))

/-! ### The `stack` package data model

`Goroutine` embeds `Signature`, which holds two `Stack`s (the call stack and
the creator).  Only the fields the repository's parsing and grouping read or
write are modelled; Go zero values become the explicit empty values below. -/

/-- One decoded argument: `Arg` (`Value uint64`, `IsPtr bool`). -/
structure Arg where
  value : Nat
  isPtr : Bool
deriving DecidableEq

/-- `Args` (`Values []Arg`, `Elided bool`). -/
structure Args where
  values : List Arg
  elided : Bool
deriving DecidableEq

/-- Modelled from the spec: the Frame Model's function-identity decomposition
(`Func` and `Func.Init` in the forked `stack` package) is not under `src/`;
per the spec it decomposes a raw function-signature token into
package/directory and bare name by prefix rules, all of which are determined
by the raw token.  We therefore model a `Func` by its raw token, which is
exactly the function identity used for display and equivalence. -/
structure Func where
  raw : List Char
deriving DecidableEq

/-- Modelled from the spec: `Func.Init` stores the decomposition of a
nonempty raw token; every caller passes the nonempty capture of a `.+`
group, so the failure branch is unreachable in this repository. -/
def Func.Init (raw : List Char) : Except Unit Func :=
  if raw.isEmpty then .error () else .ok ⟨raw⟩

/-- One stack frame: `Call` (`Func`, `Args`, `SrcPath string`, `Line int`).
The display-only fields (`LocalSrcPath`, `IsStdlib`, …) are filled in only
by the excluded path-guessing collaborator and are not modelled. -/
structure Call where
  func : Func
  args : Args
  srcPath : List Char
  line : Nat
deriving DecidableEq

def emptyCall : Call := ⟨⟨[]⟩, ⟨[], false⟩, [], 0⟩

/-- Modelled from the spec: `Call.init` (not under `src/`) populates the
source path and line number of a frame. -/
def Call.initCall (c : Call) (path : List Char) (num : Nat) : Call :=
  { c with srcPath := path, line := num }

/-- `Stack` (`Calls []Call`, `Elided bool`). -/
structure Stack where
  calls : List Call
  elided : Bool
deriving DecidableEq

/-- `Signature` (state, sleep bounds, locked flag, stack, creator). -/
structure Signature where
  state : List Char
  sleepMin : Nat
  sleepMax : Nat
  locked : Bool
  stack : Stack
  createdBy : Stack
deriving DecidableEq

def emptySignature : Signature := ⟨[], 0, 0, false, ⟨[], false⟩, ⟨[], false⟩⟩

/-- `Goroutine` (embedded `Signature`, `ID int`, `First bool`, and the race
marker `RaceWrite`/`RaceAddr`). -/
structure Goroutine where
  signature : Signature
  id : Nat
  first : Bool
  raceWrite : Bool
  raceAddr : Nat
deriving DecidableEq

/-- Modelled from the spec: the exact pointer-band constants live in the
forked `stack` package outside `src/`; the spec fixes only that a decoded
value is pointer-shaped when its magnitude falls inside a floor/ceiling
band.  We pick 16 pages (65536) and 2^63 as the band. -/
def pointerFloor : Nat := 16 * 4096

def pointerCeiling : Nat := 2 ^ 63

/-! ### Field-update helpers (mutation of `cur` through a pointer in Go) -/

def Goroutine.withStackCalls (g : Goroutine) (cs : List Call) : Goroutine :=
  { g with signature := { g.signature with stack := { g.signature.stack with calls := cs } } }

def Goroutine.withStackElided (g : Goroutine) (b : Bool) : Goroutine :=
  { g with signature := { g.signature with stack := { g.signature.stack with elided := b } } }

def Goroutine.withCreatedCalls (g : Goroutine) (cs : List Call) : Goroutine :=
  { g with signature := { g.signature with createdBy := { g.signature.createdBy with calls := cs } } }

def Goroutine.withState (g : Goroutine) (st : List Char) : Goroutine :=
  { g with signature := { g.signature with state := st } }

/-- Replace the last element of a nonempty list (`cur` is
`s.goroutines[len(s.goroutines)-1]`). -/
def setLast (gs : List Goroutine) (g : Goroutine) : List Goroutine :=
  gs.dropLast ++ [g]

/-- Replace the last call of `cur`'s call stack. -/
def Goroutine.setLastStackCall (g : Goroutine) (c : Call) : Goroutine :=
  g.withStackCalls (g.signature.stack.calls.dropLast ++ [c])

/-- Replace the last call of `cur`'s creator stack. -/
def Goroutine.setLastCreatedCall (g : Goroutine) (c : Call) : Goroutine :=
  g.withCreatedCalls (g.signature.createdBy.calls.dropLast ++ [c])

/-! ### Scanner errors

One constructor per `fmt.Errorf`/`errors.New` site in the scanner, carrying
the same payload; claims depend only on whether and which error occurred. -/

inductive ScanErr where
  | inconsistentIndentation (line expected : List Char)
  | expectedFunc (line : List Char)
  | expectedFileAfterFunc (line : List Char)
  | expectedFileAfterCreated (line : List Char)
  | failedParseInt (line : List Char)
  | failedParseAddr (line : List Char)
  | failedParseGoroutineID (line : List Char)
  | expectedEmptyAfterUnavail (line : List Char)
  | expectedFuncAfterRaceOperation (line : List Char)
  | expectedFileAfterRaceFunc (line : List Char)
  | expectedEmptyAfterRaceFile (line : List Char)
  | expectedOperatorOrGoroutine (line : List Char)
  | unexpectedGoroutineID (line : List Char)
  | expectedFuncAfterRaceOperationOrFile (line : List Char)
  | funcInitError (raw : List Char)
  | internalError
deriving DecidableEq

/-! ### `parseFunc` and `parseFile` -/

/-- The argument `parseFunc` appends for a decoded value `v`:
`Arg{Value: v, IsPtr: v > pointerFloor && v < pointerCeiling}`. -/
def mkArg (v : Nat) : Arg := ⟨v, decide (pointerFloor < v) && decide (v < pointerCeiling)⟩

/-- The argument loop of `parseFunc`: `...` marks the list elided, an empty
piece stops the loop ("Remaining values were dropped"), every other piece
must decode with `strconv.ParseUint(_, 0, 64)`; a decode failure aborts with
the error, keeping the arguments decoded so far. -/
def argsLoop (line : List Char) : List (List Char) → Args → Args × Option ScanErr
  | [], acc => (acc, none)
  | a :: rest, acc =>
    if a = threeDots then argsLoop line rest { acc with elided := true }
    else if a.isEmpty then (acc, none)
    else
      match parseUint0 a with
      | none => (acc, some (.failedParseInt (trimSpaceBytes line)))
      | some v => argsLoop line rest { acc with values := acc.values ++ [mkArg v] }

/-- `parseFunc(c, line)`: `none` models `(false, nil)` (no match); otherwise
the `Call` built so far together with the error, mirroring that Go mutates
`c` in place and "only returns an error if also returning a Call". -/
def parseFunc (line : List Char) : Option (Call × Option ScanErr) :=
  match reFunc.amatch line with
  | none => none
  | some caps =>
    match Func.Init (capGet caps 1) with
    | .error _ => some (emptyCall, some (.funcInitError (capGet caps 1)))
    | .ok fn =>
      let (args, err) := argsLoop line (splitCommaSpace (capGet caps 2) []) ⟨[], false⟩
      some ({ emptyCall with func := fn, args := args }, err)

/-- `parseFile(c, line)`: `(found, updated call, error)`; on a line-number
parse failure the call is left untouched and the error reported. -/
def parseFile (c : Call) (line : List Char) : Bool × Call × Option ScanErr :=
  match reFile.amatch line with
  | none => (false, c, none)
  | some caps =>
    match atou (capGet caps 2) with
    | none => (true, c, some (.failedParseInt (trimSpaceBytes line)))
    | some num => (true, c.initCall (capGet caps 1) num, none)

/-! ### The scanner state machine -/

/-- The `state` enumeration of the scanner (named `SState` here because
`state` is also a `Signature` field). -/
inductive SState where
  | normal
  | betweenRoutine
  | gotRoutineHeader
  | gotFunc
  | gotCreated
  | gotFileFunc
  | gotFileCreated
  | gotUnavail
  | gotRaceHeader1
  | gotRaceHeader2
  | gotRaceOperationHeader
  | gotRaceOperationFunc
  | gotRaceOperationFile
  | betweenRaceOperations
  | gotRaceGoroutineHeader
  | gotRaceGoroutineFunc
  | gotRaceGoroutineFile
  | betweenRaceGoroutines
deriving DecidableEq

/-- `scanningState`.  The source's `prefix` field is a Lean keyword and is
called `pfx` here.  Go never shrinks `goroutines`, so its `nil` slice and
its empty slice coincide with the empty list (the source only ever tests
`len` and `!= nil` on a never-truncated slice). -/
structure ScanState where
  goroutines : List Goroutine
  state : SState
  pfx : List Char
  goroutineIndex : Nat
deriving DecidableEq

/-- A scan step result: the updated state, the bytes passed through to the
junk sink, and the error, if any.  `none` models the Go code aborting the
process (the explicit `panic` in the race-header case, or a nil-pointer /
out-of-range dereference of `cur`, all of which are unrecoverable). -/
abbrev ScanRes := Option (ScanState × List Char × Option ScanErr)

/-- The loop over the header's comma-separated state tokens: a
`locked to thread` token sets the flag, an `N minutes` token (re-)sets the
sleep duration (`atou` failure silently yields 0, as `sleep, _ = atou(…)`
does). -/
def sleepLock : List (List Char) → Nat → Bool → Nat × Bool
  | [], sleep, locked => (sleep, locked)
  | it :: rest, sleep, locked =>
    if it = lockedToThread then sleepLock rest sleep true
    else
      match reMinutes.amatch it with
      | some caps2 => sleepLock rest ((atou (capGet caps2 1)).getD 0) locked
      | none => sleepLock rest sleep locked

/-- The shared `case normal: fallthrough; case betweenRoutine:` body:
recognize a goroutine header (building a fresh `Goroutine` whose `First`
flag records whether it is the first one found), or the race banner, or
pass the line through as junk and reset to `normal`. -/
def scanNormalBody (s : ScanState) (line trimmed : List Char) : ScanRes :=
  match reRoutineHeader.amatch trimmed with
  | some caps =>
    match atou (capGet caps 2) with
    | some id =>
      let items := splitCommaSpace (capGet caps 3) []
      let (sleep, locked) := sleepLock items.tail 0 false
      let g : Goroutine :=
        { signature :=
            { state := items.headI, sleepMin := sleep, sleepMax := sleep, locked := locked,
              stack := ⟨[], false⟩, createdBy := ⟨[], false⟩ },
          id := id, first := s.goroutines.isEmpty, raceWrite := false, raceAddr := 0 }
      some ({ s with goroutines := s.goroutines ++ [g], state := .gotRoutineHeader, pfx := capGet caps 1 }, [], none)
    | none =>
      if trimmed = raceHeaderFooter then some ({ s with state := .gotRaceHeader1 }, [], none)
      else some ({ s with state := .normal, pfx := [] }, line, none)
  | none =>
    if trimmed = raceHeaderFooter then some ({ s with state := .gotRaceHeader1 }, [], none)
    else some ({ s with state := .normal, pfx := [] }, line, none)

def scanGotRoutineHeader (s : ScanState) (trimmed : List Char) : ScanRes :=
  if (reUnavail.amatch trimmed).isSome then
    match s.goroutines.getLast? with
    | none => none
    | some cur =>
      let cur2 := cur.withStackCalls [{ emptyCall with srcPath := "<unavailable>".data }]
      some ({ s with goroutines := setLast s.goroutines cur2, state := .gotUnavail }, [], none)
  else
    match parseFunc trimmed with
    | some (c, err) =>
      match s.goroutines.getLast? with
      | none => none
      | some cur =>
        let cur2 := cur.withStackCalls (cur.signature.stack.calls ++ [c])
        some ({ s with goroutines := setLast s.goroutines cur2, state := .gotFunc }, [], err)
    | none => some (s, [], some (.expectedFunc (trimSpaceBytes trimmed)))

def scanGotFunc (s : ScanState) (trimmed : List Char) : ScanRes :=
  match s.goroutines.getLast? with
  | none => none
  | some cur =>
    match cur.signature.stack.calls.getLast? with
    | none => none
    | some lastCall =>
      match parseFile lastCall trimmed with
      | (_, _, some e) => some (s, [], some e)
      | (false, _, none) => some (s, [], some (.expectedFileAfterFunc (trimSpaceBytes trimmed)))
      | (true, c, none) =>
        some ({ s with goroutines := setLast s.goroutines (cur.setLastStackCall c), state := .gotFileFunc }, [], none)

def scanGotCreated (s : ScanState) (trimmed : List Char) : ScanRes :=
  match s.goroutines.getLast? with
  | none => none
  | some cur =>
    match cur.signature.createdBy.calls.head? with
    | none => none
    | some c0 =>
      match parseFile c0 trimmed with
      | (_, _, some e) => some (s, [], some e)
      | (false, _, none) => some (s, [], some (.expectedFileAfterCreated trimmed))
      | (true, c, none) =>
        let cur2 := cur.withCreatedCalls (c :: cur.signature.createdBy.calls.tail)
        some ({ s with goroutines := setLast s.goroutines cur2, state := .gotFileCreated }, [], none)

def scanGotFileFunc (s : ScanState) (line trimmed : List Char) : ScanRes :=
  match reCreated.amatch trimmed with
  | some caps =>
    match s.goroutines.getLast? with
    | none => none
    | some cur =>
      match Func.Init (capGet caps 1) with
      | .error _ =>
        some ({ s with goroutines := setLast s.goroutines (cur.withCreatedCalls []) }, [],
          some (.funcInitError (capGet caps 1)))
      | .ok fn =>
        let cur2 := cur.withCreatedCalls [{ emptyCall with func := fn }]
        some ({ s with goroutines := setLast s.goroutines cur2, state := .gotCreated }, [], none)
  | none =>
    if trimmed = framesElided then
      match s.goroutines.getLast? with
      | none => none
      | some cur =>
        some ({ s with goroutines := setLast s.goroutines (cur.withStackElided true) }, [], none)
    else
      match parseFunc trimmed with
      | some (c, err) =>
        match s.goroutines.getLast? with
        | none => none
        | some cur =>
          let cur2 := cur.withStackCalls (cur.signature.stack.calls ++ [c])
          some ({ s with goroutines := setLast s.goroutines cur2, state := .gotFunc }, [], err)
      | none =>
        if trimmed.isEmpty then some ({ s with state := .betweenRoutine }, [], none)
        else some ({ s with state := .normal, pfx := [] }, line, none)

def scanGotFileCreated (s : ScanState) (line trimmed : List Char) : ScanRes :=
  if trimmed.isEmpty then some ({ s with state := .betweenRoutine }, [], none)
  else some ({ s with state := .normal, pfx := [] }, line, none)

def scanGotUnavail (s : ScanState) (trimmed : List Char) : ScanRes :=
  if trimmed.isEmpty then some ({ s with state := .betweenRoutine }, [], none)
  else
    match reCreated.amatch trimmed with
    | some caps =>
      match s.goroutines.getLast? with
      | none => none
      | some cur =>
        match Func.Init (capGet caps 1) with
        | .error _ =>
          some ({ s with goroutines := setLast s.goroutines (cur.withCreatedCalls []) }, [],
            some (.funcInitError (capGet caps 1)))
        | .ok fn =>
          let cur2 := cur.withCreatedCalls [{ emptyCall with func := fn }]
          some ({ s with goroutines := setLast s.goroutines cur2, state := .gotCreated }, [], none)
    | none => some (s, [], some (.expectedEmptyAfterUnavail (trimSpaceBytes trimmed)))

def scanGotRaceHeader1 (s : ScanState) (line trimmed : List Char) : ScanRes :=
  if trimmed = raceHeader then some ({ s with state := .gotRaceHeader2 }, [], none)
  else some ({ s with state := .normal }, line, none)

/-- `case gotRaceHeader2`: on a race-operation header the source asserts
`s.goroutines` is nil and otherwise `panic`s — modelled by `none`. -/
def scanGotRaceHeader2 (s : ScanState) (line trimmed : List Char) : ScanRes :=
  match reRaceOperationHeader.amatch trimmed with
  | some caps =>
    let w := capGet caps 1 = writeCap
    match parseUint0 (capGet caps 2) with
    | none => some (s, [], some (.failedParseAddr (trimSpaceBytes trimmed)))
    | some addr =>
      match atou (capGet caps 3) with
      | none => some (s, [], some (.failedParseGoroutineID (trimSpaceBytes trimmed)))
      | some id =>
        if s.goroutines.isEmpty then
          some ({ s with goroutines := [⟨emptySignature, id, true, w, addr⟩], goroutineIndex := 0, state := .gotRaceOperationHeader }, [], none)
        else none
  | none => some ({ s with state := .normal }, line, none)

def scanGotRaceOperationHeader (s : ScanState) (trimmed : List Char) : ScanRes :=
  match parseFunc (trimLeftSpace trimmed) with
  | some (c, err) =>
    match s.goroutines.getLast? with
    | none => none
    | some cur =>
      let cur2 := cur.withStackCalls (cur.signature.stack.calls ++ [c])
      some ({ s with goroutines := setLast s.goroutines cur2, state := .gotRaceOperationFunc }, [], err)
  | none => some (s, [], some (.expectedFuncAfterRaceOperation trimmed))

def scanGotRaceOperationFunc (s : ScanState) (trimmed : List Char) : ScanRes :=
  match s.goroutines.getLast? with
  | none => none
  | some cur =>
    match cur.signature.stack.calls.getLast? with
    | none => none
    | some lastCall =>
      match parseFile lastCall trimmed with
      | (_, _, some e) => some (s, [], some e)
      | (false, _, none) => some (s, [], some (.expectedFileAfterRaceFunc trimmed))
      | (true, c, none) =>
        some ({ s with goroutines := setLast s.goroutines (cur.setLastStackCall c), state := .gotRaceOperationFile }, [], none)

def scanGotRaceOperationFile (s : ScanState) (trimmed : List Char) : ScanRes :=
  if trimmed.isEmpty then some ({ s with state := .betweenRaceOperations }, [], none)
  else
    match parseFunc (trimLeftSpace trimmed) with
    | some (c, err) =>
      match s.goroutines.getLast? with
      | none => none
      | some cur =>
        let cur2 := cur.withStackCalls (cur.signature.stack.calls ++ [c])
        some ({ s with goroutines := setLast s.goroutines cur2, state := .gotRaceOperationFunc }, [], err)
    | none => some (s, [], some (.expectedEmptyAfterRaceFile trimmed))

/-- The shared `case betweenRaceGoroutines` body (also reached by
fallthrough from `betweenRaceOperations`). -/
def scanBetweenRaceGoroutinesBody (s : ScanState) (trimmed : List Char) : ScanRes :=
  match reRaceGoroutine.amatch trimmed with
  | some caps =>
    match atou (capGet caps 1) with
    | none => some (s, [], some (.failedParseGoroutineID (trimSpaceBytes trimmed)))
    | some id =>
      match s.goroutines.findIdx? (fun g => g.id = id) with
      | none => some (s, [], some (.unexpectedGoroutineID (trimSpaceBytes trimmed)))
      | some i =>
        match s.goroutines.get? i with
        | none => none
        | some g =>
          some ({ s with goroutines := s.goroutines.set i (g.withState (capGet caps 2)), goroutineIndex := i, state := .gotRaceGoroutineHeader }, [], none)
  | none => some (s, [], some (.expectedOperatorOrGoroutine trimmed))

def scanBetweenRaceOperations (s : ScanState) (trimmed : List Char) : ScanRes :=
  match reRacePreviousOperationHeader.amatch trimmed with
  | some caps =>
    let w := capGet caps 1 = writeLow
    match parseUint0 (capGet caps 2) with
    | none => some (s, [], some (.failedParseAddr (trimSpaceBytes trimmed)))
    | some addr =>
      match atou (capGet caps 3) with
      | none => some (s, [], some (.failedParseGoroutineID (trimSpaceBytes trimmed)))
      | some id =>
        some ({ s with goroutines := s.goroutines ++ [⟨emptySignature, id, false, w, addr⟩], goroutineIndex := s.goroutines.length, state := .gotRaceOperationHeader }, [], none)
  | none => scanBetweenRaceGoroutinesBody s trimmed

/-- The shared `case gotRaceGoroutineHeader` body (also reached by
fallthrough from `gotRaceGoroutineFile`). -/
def scanGotRaceGoroutineHeaderBody (s : ScanState) (trimmed : List Char) : ScanRes :=
  match parseFunc (trimLeftSpace trimmed) with
  | some (c, err) =>
    match s.goroutines.get? s.goroutineIndex with
    | none => none
    | some g =>
      let g2 := g.withCreatedCalls (g.signature.createdBy.calls ++ [c])
      some ({ s with goroutines := s.goroutines.set s.goroutineIndex g2, state := .gotRaceGoroutineFunc }, [], err)
  | none => some (s, [], some (.expectedFuncAfterRaceOperationOrFile trimmed))

def scanGotRaceGoroutineFunc (s : ScanState) (trimmed : List Char) : ScanRes :=
  match s.goroutines.get? s.goroutineIndex with
  | none => none
  | some g =>
    match g.signature.createdBy.calls.getLast? with
    | none => none
    | some lastCall =>
      match parseFile lastCall trimmed with
      | (_, _, some e) => some (s, [], some e)
      | (false, _, none) => some (s, [], some (.expectedFileAfterRaceFunc trimmed))
      | (true, c, none) =>
        some ({ s with goroutines := s.goroutines.set s.goroutineIndex (g.setLastCreatedCall c), state := .gotRaceGoroutineFile }, [], none)

def scanGotRaceGoroutineFile (s : ScanState) (trimmed : List Char) : ScanRes :=
  if trimmed.isEmpty then some ({ s with state := .betweenRaceGoroutines }, [], none)
  else if trimmed = raceHeaderFooter then some ({ s with state := .normal }, [], none)
  else scanGotRaceGoroutineHeaderBody s trimmed

/-- The scanner's `switch s.state`. -/
def scanSwitch (s : ScanState) (line trimmed : List Char) : ScanRes :=
  match s.state with
  | .normal => scanNormalBody s line trimmed
  | .betweenRoutine => scanNormalBody s line trimmed
  | .gotRoutineHeader => scanGotRoutineHeader s trimmed
  | .gotFunc => scanGotFunc s trimmed
  | .gotCreated => scanGotCreated s trimmed
  | .gotFileFunc => scanGotFileFunc s line trimmed
  | .gotFileCreated => scanGotFileCreated s line trimmed
  | .gotUnavail => scanGotUnavail s trimmed
  | .gotRaceHeader1 => scanGotRaceHeader1 s line trimmed
  | .gotRaceHeader2 => scanGotRaceHeader2 s line trimmed
  | .gotRaceOperationHeader => scanGotRaceOperationHeader s trimmed
  | .gotRaceOperationFunc => scanGotRaceOperationFunc s trimmed
  | .gotRaceOperationFile => scanGotRaceOperationFile s trimmed
  | .betweenRaceOperations => scanBetweenRaceOperations s trimmed
  | .gotRaceGoroutineHeader => scanGotRaceGoroutineHeaderBody s trimmed
  | .gotRaceGoroutineFunc => scanGotRaceGoroutineFunc s trimmed
  | .gotRaceGoroutineFile => scanGotRaceGoroutineFile s trimmed
  | .betweenRaceGoroutines => scanBetweenRaceGoroutinesBody s trimmed

/-- The indentation discipline: a nonempty line inside a block must start
with the recorded prefix, which is then stripped; otherwise the scan fails
with "inconsistent indentation" and resets to `normal`. -/
def scanAfterTrim (s : ScanState) (line trimmed : List Char) : ScanRes :=
  if trimmed.isEmpty ∨ s.pfx.isEmpty then scanSwitch s line trimmed
  else if s.pfx.isPrefixOf trimmed then scanSwitch s line (trimmed.drop s.pfx.length)
  else some ({ s with state := .normal, pfx := [] }, [],
    some (.inconsistentIndentation trimmed s.pfx))

/-- `scanningState.scan`: strip the line terminator; a line with no
terminator (end of stream, or a too-long line) is passed through untouched
when the scanner is in `normal`, and otherwise "let flow" into the state
machine unchanged. -/
def scan (s : ScanState) (line : List Char) : ScanRes :=
  if endsWith line crlf then scanAfterTrim s line (line.take (line.length - 2))
  else if endsWith line lf then scanAfterTrim s line (line.take (line.length - 1))
  else if s.state = .normal then some (s, line, none)
  else scanAfterTrim s line line

/-! ### The dump driver `parseDump` / `ParseDump` -/

inductive ReadErr where
  | eof
  | bufferFull
deriving DecidableEq

/-- `bufio.ReadSlice('\n')` over the remaining input, with the 16 KiB
buffer of `parseDump`: data up to and including the first newline; a full
buffer with no newline yields `bufio.ErrBufferFull`; otherwise the rest of
the stream with `io.EOF`. -/
def readSlice (input : List Char) : List Char × Option ReadErr :=
  match (input.take 16384).findIdx? (fun c => c = '\n') with
  | some i => (input.take (i + 1), none)
  | none =>
    if 16384 ≤ input.length then (input.take 16384, some .bufferFull)
    else (input, some .eof)

/-- The result of `parseDump`: goroutines, error and junk stream, or the
process aborting (`.panicked`, see `scan`). -/
inductive DumpResult where
  | ok (goroutines : List Goroutine) (err : Option ScanErr) (out : List Char)
  | panicked (out : List Char)
deriving DecidableEq

/-- The loop iteration in which `ReadSlice` returns `(nil, io.EOF)`: the
empty slice is scanned and the loop necessarily returns.  (When a too-long
line ended exactly at the end of stream, the loop first flushes the empty
tail and comes back here, which is the same computation.) -/
def finishEOF (s : ScanState) (out : List Char) : DumpResult :=
  match scan s [] with
  | none => .panicked out
  | some (s2, junk, serr) =>
    match serr with
    | some e => .ok s2.goroutines (some e) (out ++ junk)
    | none => .ok s2.goroutines none (out ++ junk)

/-- The `parseDump` loop.  `fuel` only drives the recursion: every
iteration on a nonempty input consumes at least one character, so the
wrapper's `input.length` fuel is always sufficient and the zero-fuel arm is
unreachable (it mirrors the empty-input arm so the equations stay total).
Output-sink writes never fail in the model. -/
def parseDumpGo : Nat → List Char → ScanState → Bool → List Char → DumpResult
  | _, [], s, _, out => finishEOF s out
  | 0, _ :: _, s, _, out => finishEOF s out
  | fuel + 1, input@(_ :: _), s, wasLong, out =>
    let (slice, rerr) := readSlice input
    if rerr = some .bufferFull ∨ wasLong then
      parseDumpGo fuel (input.drop slice.length) s (rerr = some .bufferFull) (out ++ slice)
    else
      match scan s slice with
      | none => .panicked out
      | some (s2, junk, serr) =>
        match serr with
        | some e => .ok s2.goroutines (some e) (out ++ junk)
        | none =>
          match rerr with
          | some .eof => .ok s2.goroutines none (out ++ junk)
          | _ => parseDumpGo fuel (input.drop slice.length) s2 false (out ++ junk)

/-- `parseDump(r, out)`: drive the scanner over the whole input from the
initial state, collecting the junk stream. -/
def parseDump (input : List Char) : DumpResult :=
  parseDumpGo input.length input ⟨[], .normal, [], 0⟩ false []

structure Context where
  goroutines : List Goroutine
deriving DecidableEq

inductive ParseDumpResult where
  | ok (ctx : Option Context) (err : Option ScanErr) (out : List Char)
  | panicked (out : List Char)
deriving DecidableEq

/-- `ParseDump(r, out, false)` as the repository calls it (`rebase` is the
constant `false` in `ProcessHTML`, so no path guessing happens): a `nil`
context when no goroutine was found, the error passed through either way.
`nameArguments` (not under `src/`) only assigns display names and is the
identity on the modelled fields. -/
def ParseDump (input : List Char) : ParseDumpResult :=
  match parseDump input with
  | .panicked out => .panicked out
  | .ok gs err out => if gs.isEmpty then .ok none err out else .ok (some ⟨gs⟩) err out

end stack

def c6input : List Char :=
  ("goroutine 1 [running]:\n" ++
   "main.main.func1(0xc000194000)\n" ++
   "\t/path/stackdemo.go:26 +0x76\n" ++
   "created by main.main\n" ++
   "\t/path/stackdemo.go:25 +0x647\n").data

def c6routine : stack.Goroutine :=
  ⟨⟨"running".data, 0, 0, false,
    ⟨[⟨⟨"main.main.func1".data⟩, ⟨[⟨0xc000194000, true⟩], false⟩, "/path/stackdemo.go".data, 26⟩], false⟩,
    ⟨[⟨⟨"main.main".data⟩, ⟨[], false⟩, "/path/stackdemo.go".data, 25⟩], false⟩⟩,
   1, true, false, 0⟩

namespace stack

/-! ### Modelled from the spec: the equivalence & aggregation engine

`stack.Aggregate` and the `Similarity` modes live in the forked `stack`
package outside `src/`.  Per the spec (§4.4, §6): compute each routine's
canonical `Signature` — in pointer-insensitive mode every pointer-shaped
argument is treated as equal to any other — and group routines whose
canonical signature is structurally equal, buckets sorted by descending
member count with ties broken by first-seen order.  Grouping keeps
first-seen order and the sort below is stable, which realizes that
tie-breaking. -/

/-- The two canonicalization modes the repository uses (`stack.AnyPointer`
in `ProcessHTML`, exact matching as the other option). -/
inductive Similarity where
  | exactLines
  | anyPointer
deriving DecidableEq

/-- Modelled from the spec: canonicalize one argument. -/
def canonArg : Similarity → Arg → Arg
  | .anyPointer, a => if a.isPtr then ⟨0, true⟩ else a
  | .exactLines, a => a

/-- Modelled from the spec: canonicalize one call (function identity,
file:line and elision kept; argument values per the mode). -/
def canonCall (m : Similarity) (c : Call) : Call :=
  { c with args := ⟨c.args.values.map (canonArg m), c.args.elided⟩ }

/-- Modelled from the spec: a routine's canonical signature. -/
def canonSig (m : Similarity) (sig : Signature) : Signature :=
  { sig with stack := ⟨sig.stack.calls.map (canonCall m), sig.stack.elided⟩,
             createdBy := ⟨sig.createdBy.calls.map (canonCall m), sig.createdBy.elided⟩ }

/-- A bucket: representative signature, member IDs in first-seen order, and
whether the first-seen routine of the dump landed here. -/
structure Bucket where
  signature : Signature
  ids : List Nat
  first : Bool
deriving DecidableEq

def insertBucket (bs : List Bucket) (sig : Signature) (g : Goroutine) : List Bucket :=
  match bs with
  | [] => [⟨sig, [g.id], g.first⟩]
  | b :: rest =>
    if b.signature = sig then { b with ids := b.ids ++ [g.id], first := b.first || g.first } :: rest
    else b :: insertBucket rest sig g

/-- Modelled from the spec: group by canonical signature, keeping
first-seen order of buckets and of IDs inside a bucket. -/
def bucketsOf (gs : List Goroutine) (m : Similarity) : List Bucket :=
  gs.foldl (fun bs g => insertBucket bs (canonSig m g.signature) g) []

/-- Modelled from the spec: `Aggregate(goroutines, similarity)`, buckets
sorted by descending member count, ties in first-seen order. -/
def Aggregate (gs : List Goroutine) (m : Similarity) : List Bucket :=
  List.insertionSort (fun a b => b.ids.length ≤ a.ids.length) (bucketsOf gs m)

end stack

namespace cs

/-! ## The `combinestacks.go` parser and duplicate grouping -/

/-- `frame`: one call-stack line of the simple parser. -/
structure HFrame where
  function : List Char
  args : List Char
  file : List Char
  line : Nat
deriving DecidableEq

def emptyFrame : HFrame := ⟨[], [], [], 0⟩

/-- `routine` of the simple parser. -/
structure HRoutine where
  label : List Char
  state : List Char
  stack : List HFrame
  created : HFrame
deriving DecidableEq

def runtimeState : List Char := "running".data

/-- `(runtime stack):` (unanchored). -/
def startRuntimeStack : Re :=
  .cat (.grp 1 (.lit "runtime stack".data)) (.lit ":".data)

/-- `goroutine (\d+) \[([^\]]+)\]` (unanchored). -/
def goroutineStart : Re :=
  .cat (.lit "goroutine ".data)
    (.cat (.grp 1 (.plus isDigit))
      (.cat (.lit " [".data)
        (.cat (.grp 2 (.plus (fun c => c ≠ ']'))) (.lit "]".data))))

/-- `([^ ]+)\(([^)]*)\)\s*$` (end-anchored). -/
def callLine : Re :=
  .cat (.grp 1 (.plus (fun c => c ≠ ' ')))
    (.cat (.lit "(".data)
      (.cat (.grp 2 (.star (fun c => c ≠ ')')))
        (.cat (.lit ")".data) (.cat (.star isSpaceRe) .eos))))

/-- `created by ([^ ]+)` (unanchored). -/
def createdByLine : Re :=
  .cat (.lit "created by ".data) (.grp 1 (.plus (fun c => c ≠ ' ')))

/-- `([^\s]+):(\d+)($| \+| fp=).*$` (unanchored; anything after the line
number is ignored). -/
def fileLine : Re :=
  .cat (.grp 1 (.plus (fun c => ¬ isSpaceRe c)))
    (.cat (.lit ":".data)
      (.cat (.grp 2 (.plus isDigit))
        (.cat (.grp 3 (.alt .eos (.alt (.lit " +".data) (.lit " fp=".data))))
          (.cat (.star isDot) .eos))))

/-- `strconv.ParseInt(s, 10, 0)` on the digit-only capture: decimal digits,
result must fit in a signed 64-bit int. -/
def parseIntDec (s : List Char) : Option Nat :=
  if s.isEmpty ∨ ¬ s.all isDigit then none
  else
    match digitsVal 10 s 0 with
    | some v => if v < 2 ^ 63 then some v else none
    | none => none

/-- The `bufio.ScanLines` split function: split on `\n`, dropping one
trailing `\r` per line; a final unterminated chunk is still a token, a
trailing newline adds none.  The split function itself has no length
limit — the `bufio.Scanner` driving it enforces `MaxScanTokenSize`; see
`scanLinesGoTL` for the scanner including that limit. -/
def dropCR (l : List Char) : List Char :=
  if l.getLast? = some '\r' then l.dropLast else l

def scanLinesGo : List Char → List Char → List (List Char)
  | [], acc => if acc.isEmpty then [] else [dropCR acc.reverse]
  | '\n' :: rest, acc => dropCR acc.reverse :: scanLinesGo rest []
  | c :: rest, acc => scanLinesGo rest (c :: acc)

def scanLines (input : List Char) : List (List Char) := scanLinesGo input []

/-- `bufio.MaxScanTokenSize` (64 · 1024), the default `Scanner` buffer
and token-size cap (`parse` builds its scanner with `bufio.NewScanner`,
keeping the defaults). -/
def maxScanTokenSize : Nat := 65536

/-- The token loop of a default `bufio.Scanner` with `ScanLines`: the
tokens produced by successive `Scan()` calls, plus whether scanning
stopped with `ErrTooLong`.  `Scan` fails with `ErrTooLong` the moment the
full 64 KiB buffer holds no newline — that is, as soon as a `\n`-free run
of the input reaches `MaxScanTokenSize` bytes (even at the very end of
the stream: the buffer fills before the reader can report `io.EOF`).
Tokens scanned before that moment are still produced; the oversized run
never becomes a token and nothing after it is scanned. -/
def scanLinesGoTL : List Char → List Char → List (List Char) × Bool
  | [], acc => if acc.isEmpty then ([], false) else ([dropCR acc.reverse], false)
  | '\n' :: rest, acc =>
    (dropCR acc.reverse :: (scanLinesGoTL rest []).1, (scanLinesGoTL rest []).2)
  | c :: rest, acc =>
    if maxScanTokenSize ≤ acc.length + 1 then ([], true)
    else scanLinesGoTL rest (c :: acc)

def scanLinesTL (input : List Char) : List (List Char) × Bool := scanLinesGoTL input []

/-- The five `errors.New`/`strconv` failure sites of `parse`, plus
`bufio.ErrTooLong`, which `parse` surfaces through its final
`scanner.Err()` check. -/
inductive ParseErr where
  | callWithoutRoutine (line : List Char)
  | createdWithoutRoutine (line : List Char)
  | intParse (line : List Char)
  | fileWithoutRoutine (line : List Char)
  | fileWithoutFrame (line : List Char)
  | tooLong
deriving DecidableEq

/-- Update the last routine in place (`parsedRoutines[len(parsedRoutines)-1]`). -/
def updateLast (rs : List HRoutine) (f : HRoutine → HRoutine) : List HRoutine :=
  match rs.getLast? with
  | none => rs
  | some r => rs.dropLast ++ [f r]

/-- Update the last frame of a stack (`lastRoutine.stack[len(...)-1]`). -/
def updateLastFrame (fs : List HFrame) (file : List Char) (n : Nat) : List HFrame :=
  match fs.getLast? with
  | none => fs
  | some f => fs.dropLast ++ [{ f with file := file, line := n }]

/-- The loop state of `parse`: the routines so far and `createdByFound`. -/
structure PState where
  routines : List HRoutine
  createdByFound : Bool
deriving DecidableEq

/-- One iteration of the `scanner.Scan()` loop of `parse`: the five regexes
are tried in source order, first match wins, an unmatched line is skipped. -/
def processLine (st : PState) (l : List Char) : Except ParseErr PState :=
  match startRuntimeStack.search l with
  | some caps => .ok ⟨st.routines ++ [⟨capGet caps 1, runtimeState, [], emptyFrame⟩], false⟩
  | none =>
  match goroutineStart.search l with
  | some caps => .ok ⟨st.routines ++ [⟨capGet caps 1, capGet caps 2, [], emptyFrame⟩], false⟩
  | none =>
  match callLine.search l with
  | some caps =>
    if st.routines.isEmpty then .error (.callWithoutRoutine l)
    else
      let f : HFrame := ⟨capGet caps 1, capGet caps 2, [], 0⟩
      .ok ⟨updateLast st.routines (fun r => { r with stack := r.stack ++ [f] }), st.createdByFound⟩
  | none =>
  match createdByLine.search l with
  | some caps =>
    if st.routines.isEmpty then .error (.createdWithoutRoutine l)
    else
      let f : HFrame := ⟨capGet caps 1, [], [], 0⟩
      .ok ⟨updateLast st.routines (fun r => { r with created := f }), true⟩
  | none =>
  match fileLine.search l with
  | some caps =>
    match parseIntDec (capGet caps 2) with
    | none => .error (.intParse l)
    | some n =>
      if st.routines.isEmpty then .error (.fileWithoutRoutine l)
      else if st.createdByFound then
        .ok ⟨updateLast st.routines
          (fun r => { r with created := { r.created with file := capGet caps 1, line := n } }), false⟩
      else
        match st.routines.getLast? with
        | none => .error (.fileWithoutRoutine l)
        | some r0 =>
          if r0.stack.isEmpty then .error (.fileWithoutFrame l)
          else
            .ok ⟨updateLast st.routines
              (fun r => { r with stack := updateLastFrame r.stack (capGet caps 1) n }), st.createdByFound⟩
  | none => .ok st

def parseLines : List (List Char) → PState → Except ParseErr PState
  | [], st => .ok st
  | l :: rest, st =>
    match processLine st l with
    | .error e => .error e
    | .ok st2 => parseLines rest st2

/-- `parse(r)`: run the line loop from the empty state over the tokens the
scanner produces.  A failure site inside the loop returns its error at
once (scanning stops there); otherwise, after the loop, `scanner.Err()`
is checked — a line over `MaxScanTokenSize` makes it `bufio.ErrTooLong`
and `parse` returns `(nil, err)`, discarding every routine parsed so
far. -/
def parse (input : List Char) : Except ParseErr (List HRoutine) :=
  match parseLines (scanLinesTL input).1 ⟨[], false⟩ with
  | .error e => .error e
  | .ok st => if (scanLinesTL input).2 then .error .tooLong else .ok st.routines

/-! ### `hash` / `writeAggregated` -/

/-- `hashFrame` writes `function|file|line|` into the hasher. -/
def hashFrameBytes (f : HFrame) : List Char :=
  f.function ++ "|".data ++ f.file ++ "|".data ++ itoa f.line ++ "|".data

/-- `hash(r)` feeds every stack frame and then the creator frame to
SHA-256.  We model the digest by the exact byte stream fed to the hasher:
two routines receive equal digests exactly when they feed equal streams
(SHA-256 collisions aside), which is what the grouping consumes. -/
def hash (r : HRoutine) : List Char :=
  (r.stack.map hashFrameBytes).flatten ++ hashFrameBytes r.created

/-- `groups[h] = append(groups[h], r)`: the Go map content, as an
association list in first-insertion order (the map's *content* is
deterministic; only its iteration order is not, see `writeAggBuckets`). -/
def insertGroup (gm : List (List Char × List HRoutine)) (k : List Char) (r : HRoutine) :
    List (List Char × List HRoutine) :=
  match gm with
  | [] => [(k, [r])]
  | (k0, rs) :: rest =>
    if k0 = k then (k0, rs ++ [r]) :: rest else (k0, rs) :: insertGroup rest k r

def groupsOf (rs : List HRoutine) : List (List Char × List HRoutine) :=
  rs.foldl (fun gm r => insertGroup gm (hash r) r) []

/-- The bucket computation of `writeAggregated`.  Go's `for h := range
groups` enumerates the map in an unspecified, run-to-run randomized order;
the enumeration is passed in as `ord` (any permutation of the keys).  The
collected groups are then sorted by descending member count with
`sort.Slice`, modelled by an insertion sort — `sort.Slice` promises only
sortedness, and for slices this short runs exactly insertion sort. -/
def writeAggBuckets (rs : List HRoutine) (ord : List (List Char)) : List (List HRoutine) :=
  let gm := groupsOf rs
  let arranged := ord.filterMap (fun k => (gm.find? (fun e => e.1 = k)).map (fun e => e.2))
  List.insertionSort (fun a b => b.length ≤ a.length) arranged

/-- Vocabulary for claim C9: a line the parser recognizes as the start of a
fresh routine (the first two regexes of `processLine`). -/
def headerLine (l : List Char) : Bool :=
  (startRuntimeStack.search l).isSome || (goroutineStart.search l).isSome

/-- Vocabulary for claim C9: the routine such a line starts. -/
def newRoutine (l : List Char) : HRoutine :=
  match startRuntimeStack.search l with
  | some caps => ⟨capGet caps 1, runtimeState, [], emptyFrame⟩
  | none =>
    match goroutineStart.search l with
    | some caps => ⟨capGet caps 1, capGet caps 2, [], emptyFrame⟩
    | none => ⟨[], [], [], emptyFrame⟩

end cs

namespace stack

/-- Vocabulary for claim C5: the argument a piece contributes (`...`
contributes none). -/
def decodePiece (p : List Char) : Option Arg :=
  if p = threeDots then none else (parseUint0 p).map mkArg

/-- Vocabulary for claim C5: a piece the argument loop consumes without
stopping or failing. -/
def goodPiece (p : List Char) : Prop :=
  p = threeDots ∨ (p ≠ [] ∧ (parseUint0 p).isSome)

instance (p : List Char) : Decidable (goodPiece p) := by
  unfold goodPiece; infer_instance

/-- Vocabulary for claim C3: a scan step result without its junk bytes (the
state reached, and the error). -/
def dropJunk : ScanRes → Option (ScanState × Option ScanErr)
  | none => none
  | some (s, _, e) => some (s, e)

/-- Vocabulary for claim C10: the `First` discipline on a goroutine list —
the head (if any) carries the flag and no other routine does. -/
def firstOK : List Goroutine → Prop
  | [] => True
  | g :: rest => g.first = true ∧ ∀ h ∈ rest, h.first = false

instance : (gs : List Goroutine) → Decidable (firstOK gs)
  | [] => isTrue trivial
  | _ :: _ => instDecidableAnd

/-- Vocabulary for claim C10: the two scanner states in which the race
sub-machine may extend an already-started report (`betweenRaceOperations`
appends a non-`First` goroutine, so the list must already be nonempty
there). -/
def SState.needsGoroutines : SState → Bool
  | .gotRaceOperationFile => true
  | .betweenRaceOperations => true
  | _ => false

/-- Vocabulary for claim C10: the per-step invariant — the `First`
discipline, plus nonemptiness of the goroutine list in the two states
above. -/
def scanInvariant (s : ScanState) : Prop :=
  firstOK s.goroutines ∧ (s.state.needsGoroutines = true → s.goroutines ≠ [])

instance (s : ScanState) : Decidable (scanInvariant s) := by
  unfold scanInvariant; infer_instance

/-- Vocabulary for claim C8: two calls identical except for the value of
one decoded pointer-shaped argument. -/
def PtrArgVariant (c1 c2 : Call) : Prop :=
  c1.func = c2.func ∧ c1.srcPath = c2.srcPath ∧ c1.line = c2.line ∧
  c1.args.elided = c2.args.elided ∧
  ∃ (pre post : List Arg) (v1 v2 : Nat), v1 ≠ v2 ∧
    c1.args.values = pre ++ ⟨v1, true⟩ :: post ∧
    c2.args.values = pre ++ ⟨v2, true⟩ :: post

/-- Vocabulary for claim C8: two routines identical except for the value of
one decoded pointer-shaped argument of one stack call. -/
def DiffersInOnePtrArg (g1 g2 : Goroutine) : Prop :=
  g1.signature.state = g2.signature.state ∧
  g1.signature.sleepMin = g2.signature.sleepMin ∧
  g1.signature.sleepMax = g2.signature.sleepMax ∧
  g1.signature.locked = g2.signature.locked ∧
  g1.signature.stack.elided = g2.signature.stack.elided ∧
  g1.signature.createdBy = g2.signature.createdBy ∧
  ∃ (pre post : List Call) (c1 c2 : Call), PtrArgVariant c1 c2 ∧
    g1.signature.stack.calls = pre ++ c1 :: post ∧
    g2.signature.stack.calls = pre ++ c2 :: post

end stack

/-! ## Claim inputs -/

/-- The input of claim C2: a complete goroutine block followed by a
race-detector report. -/
def c2input : List Char :=
  ("goroutine 1 [running]:\n" ++
   "main.main()\n" ++
   "\t/path/main.go:10 +0x10\n" ++
   "\n" ++
   "==================\n" ++
   "WARNING: DATA RACE\n" ++
   "Read at 0x00c000e4030 by goroutine 7:\n").data

/-- Vocabulary for claim C1: the line-terminator stripping `scan` performs. -/
def stripEOL (l : List Char) : List Char :=
  if endsWith l stack.crlf then l.take (l.length - 2)
  else if endsWith l stack.lf then l.take (l.length - 1)
  else l

/-- Vocabulary for claim C1: a chunk holding no recognizable trace content —
neither a routine header nor the race banner. -/
def isJunkSlice (l : List Char) : Prop :=
  stack.reRoutineHeader.amatch (stripEOL l) = none ∧ stripEOL l ≠ stack.raceHeaderFooter

instance (l : List Char) : Decidable (isJunkSlice l) := by
  unfold isJunkSlice; infer_instance

/-- Vocabulary for claim C1: an input stream containing no recognizable
trace at all — every chunk the reader can produce, at any position, is
junk.  (Quantifying over all positions keeps the predicate independent of
the reader's chunking.) -/
def JunkOnly (input : List Char) : Prop :=
  ∀ n, n ≤ input.length → isJunkSlice (stack.readSlice (input.drop n)).1

instance (input : List Char) : Decidable (JunkOnly input) :=
  Nat.decidableBallLE _ _

/-- The input of claim C1's partial-results part: one complete routine
block, then a second block whose call line is the last line of the stream —
a call line with no following file line at end of stream. -/
def c1input : List Char :=
  ("goroutine 1 [running]:\n" ++
   "main.main.func1(0xc000194000)\n" ++
   "\t/path/stackdemo.go:26 +0x76\n" ++
   "\n" ++
   "goroutine 2 [running]:\n" ++
   "main.f()\n").data

/-- The routine fully parsed before the failure in `c1input`. -/
def c1routine1 : stack.Goroutine :=
  ⟨⟨"running".data, 0, 0, false,
    ⟨[⟨⟨"main.main.func1".data⟩, ⟨[⟨0xc000194000, true⟩], false⟩, "/path/stackdemo.go".data, 26⟩], false⟩,
    ⟨[], false⟩⟩, 1, true, false, 0⟩

/-- The routine under construction when `c1input` ends. -/
def c1routine2 : stack.Goroutine :=
  ⟨⟨"running".data, 0, 0, false,
    ⟨[⟨⟨"main.f".data⟩, ⟨[], false⟩, [], 0⟩], false⟩,
    ⟨[], false⟩⟩, 2, false, false, 0⟩

/-- The goroutine recorded for the single header line
`goroutine 1 [running]:` (claim C10's witness input). -/
def c10routine : stack.Goroutine :=
  ⟨⟨"running".data, 0, 0, false, ⟨[], false⟩, ⟨[], false⟩⟩, 1, true, false, 0⟩

/-- Claim C7's inputs: two routines with distinct hashes, so each forms its
own singleton group (a tie in member count). -/
def c7r1 : cs.HRoutine := ⟨"1".data, "running".data, [], ⟨"main.a".data, [], [], 0⟩⟩

/-- See `c7r1`. -/
def c7r2 : cs.HRoutine := ⟨"2".data, "running".data, [], ⟨"main.b".data, [], [], 0⟩⟩

/-- Claim C8's witness inputs: one call with a single pointer-shaped
argument, and its variant with a different pointer value. -/
def c8c1 : stack.Call := ⟨⟨"main.f".data⟩, ⟨[⟨0x20000, true⟩], false⟩, "/a.go".data, 10⟩

/-- See `c8c1`. -/
def c8c2 : stack.Call := ⟨⟨"main.f".data⟩, ⟨[⟨0x30000, true⟩], false⟩, "/a.go".data, 10⟩

/-- See `c8c1`: the two routines around those calls. -/
def c8g1 : stack.Goroutine :=
  ⟨⟨"running".data, 0, 0, false, ⟨[c8c1], false⟩, ⟨[], false⟩⟩, 1, true, false, 0⟩

/-- See `c8c1`. -/
def c8g2 : stack.Goroutine :=
  ⟨⟨"running".data, 0, 0, false, ⟨[c8c2], false⟩, ⟨[], false⟩⟩, 2, false, false, 0⟩

/-- Vocabulary for claim C9: the input repeated `n` times. -/
def repeatChars (l : List Char) : Nat → List Char
  | 0 => []
  | n + 1 => l ++ repeatChars l n

/-- Claim C9's witness trace: one routine with one call. -/
def c9trace : List Char := "goroutine 7 [running]:\nmain.f()\n\t/a.go:10 +0x10\n".data

/-- The routine `c9trace` parses to. -/
def c9r : cs.HRoutine :=
  ⟨"7".data, "running".data, [⟨"main.f".data, [], "/a.go".data, 10⟩], cs.emptyFrame⟩

/-! ## Claims -/

/-- C2: false as stated — the spec says nothing in the core is fatal to the
host process, but on an input holding a goroutine block followed by a
race-detector report the scanner reaches `gotRaceHeader2` with a non-empty
goroutine list and executes `panic("internal failure; expected s.goroutines
to be nil")`, aborting the host process instead of returning an error
value.  The theorem evaluates `parseDump` at that input to the abort
outcome (`.panicked`). -/
theorem claim_C2 : stack.parseDump c2input = .panicked [] := by decide

/-- C6: the five-line example parses to exactly one routine with ID 1
(printed `"1"`), state `running`, a single call of `main.main.func1` with
the one argument `0xc000194000` at `/path/stackdemo.go:26`, and creator
call `main.main` with no arguments at `/path/stackdemo.go:25`; nothing goes
to the junk sink and no error is reported.  `c6routine` spells out exactly
those fields. -/
theorem claim_C6 : stack.parseDump c6input = .ok [c6routine] none [] := by decide

namespace stack

theorem parseUint0_threeDots : parseUint0 threeDots = none := by decide

/-- The argument loop on pieces it fully consumes: no error, arguments in
order, elided exactly when a `...` piece occurs. -/
theorem argsLoop_good (l : List Char) :
    ∀ ps acc, (∀ p ∈ ps, goodPiece p) →
      argsLoop l ps acc =
        (⟨acc.values ++ ps.filterMap decodePiece, acc.elided || ps.contains threeDots⟩, none) := by
  intro ps
  induction ps with
  | nil => intro acc _; simp [argsLoop]
  | cons p ps ih =>
    intro acc h
    have hps : ∀ q ∈ ps, goodPiece q := fun q hq => h q (List.mem_cons_of_mem _ hq)
    by_cases hd : p = threeDots
    · subst hd
      rw [argsLoop, if_pos rfl, ih _ hps]
      simp [decodePiece]
    · rcases h p (List.mem_cons_self p ps) with hd2 | ⟨hne, hdec⟩
      · exact absurd hd2 hd
      obtain ⟨v, hv⟩ := Option.isSome_iff_exists.mp hdec
      have hemp : p.isEmpty = false := by
        cases p with
        | nil => exact absurd rfl hne
        | cons a b => rfl
      rw [argsLoop, if_neg hd, hemp, hv]
      simp only [Bool.false_eq_true, if_false]
      rw [ih _ hps]
      have hdp : decodePiece p = some (mkArg v) := by
        rw [decodePiece, if_neg hd, hv]; rfl
      have hct : (p :: ps).contains threeDots = ps.contains threeDots := by
        have hne2 : (threeDots == p) = false := beq_eq_false_iff_ne.mpr (Ne.symm hd)
        rw [List.contains_cons, hne2, Bool.false_or]
      rw [List.filterMap_cons, hdp, hct]
      simp [List.append_assoc]

/-- An empty piece stops the argument loop: the pieces after it are ignored
and the result is exactly that of the pieces before it. -/
theorem argsLoop_empty_stops (l : List Char) :
    ∀ pre rest acc, argsLoop l (pre ++ [] :: rest) acc = argsLoop l pre acc := by
  intro pre
  induction pre with
  | nil =>
    intro rest acc
    rw [List.nil_append, argsLoop, argsLoop]
    rfl
  | cons q pre ih =>
    intro rest acc
    rw [List.cons_append, argsLoop, argsLoop]
    by_cases hd : q = threeDots
    · rw [if_pos hd, if_pos hd, ih]
    · rw [if_neg hd, if_neg hd]
      cases hq : q.isEmpty
      · simp only [Bool.false_eq_true, if_false]
        cases parseUint0 q
        · rfl
        · exact ih _ _
      · rfl

/-- A non-empty, non-`...` piece that fails to decode, reached before any
empty piece, is a hard parse error. -/
theorem argsLoop_bad (l : List Char) :
    ∀ pre p rest acc, (∀ q ∈ pre, goodPiece q) → p ≠ [] → p ≠ threeDots →
      parseUint0 p = none →
      (argsLoop l (pre ++ p :: rest) acc).2 = some (.failedParseInt (trimSpaceBytes l)) := by
  intro pre
  induction pre with
  | nil =>
    intro p rest acc _ hne hd hu
    have hemp : p.isEmpty = false := by
      cases p with
      | nil => exact absurd rfl hne
      | cons a b => rfl
    rw [List.nil_append, argsLoop, if_neg hd, hemp]
    simp only [Bool.false_eq_true, if_false]
    rw [hu]
  | cons q pre ih =>
    intro p rest acc h hne hd hu
    have hq := h q (List.mem_cons_self q pre)
    have hpre : ∀ r ∈ pre, goodPiece r := fun r hr => h r (List.mem_cons_of_mem _ hr)
    rw [List.cons_append, argsLoop]
    by_cases hqd : q = threeDots
    · rw [if_pos hqd]; exact ih p rest _ hpre hne hd hu
    · rcases hq with hq | ⟨hqne, hqdec⟩
      · exact absurd hq hqd
      obtain ⟨v, hv⟩ := Option.isSome_iff_exists.mp hqdec
      have hemp : q.isEmpty = false := by
        cases q with
        | nil => exact absurd rfl hqne
        | cons a b => rfl
      rw [if_neg hqd, hemp]
      simp only [Bool.false_eq_true, if_false]
      rw [hv]
      exact ih p rest _ hpre hne hd hu

end stack

/-- C5 counterexample: the claim says an empty last item marks the argument
list as truncated.  The raw argument-list token `"0x1, "` splits into
pieces whose last item is empty, yet `parseFunc` on `f(0x1, )` returns the
argument list with `Elided = false` (the empty piece merely stops the
loop). -/
theorem claim_C5_counterexample :
    (splitCommaSpace "0x1, ".data []).getLast? = some [] ∧
    stack.parseFunc "f(0x1, )".data =
      some ({ stack.emptyCall with func := ⟨"f".data⟩, args := ⟨[⟨1, false⟩], false⟩ }, none) := by
  decide

/-- C5 (amended): for every raw argument-list token, `parseFunc` splits it
on the literal separator `", "` and runs the argument loop, which:
(1) on pieces that are each `...` or a decodable unsigned integer (`0x`
prefixes accepted by `parseUint0`), succeeds with the decoded arguments in
order and marks the list truncated exactly when a `...` piece occurs;
(2) stops at an empty piece, ignoring the remaining pieces — in particular
an empty last item does *not* mark the list truncated; and
(3) returns a hard parse error (propagated, never dropped) on decoding
failure of any non-empty, non-`...` piece reached before an empty piece. -/
theorem claim_C5 :
    (∀ l t, (∀ p ∈ splitCommaSpace t [], stack.goodPiece p) →
      stack.argsLoop l (splitCommaSpace t []) ⟨[], false⟩ =
        (⟨(splitCommaSpace t []).filterMap stack.decodePiece,
          (splitCommaSpace t []).contains stack.threeDots⟩, none)) ∧
    (∀ l pre rest acc, stack.argsLoop l (pre ++ [] :: rest) acc = stack.argsLoop l pre acc) ∧
    (∀ l pre p rest, (∀ q ∈ pre, stack.goodPiece q) → p ≠ [] → p ≠ stack.threeDots →
      parseUint0 p = none →
      (stack.argsLoop l (pre ++ p :: rest) ⟨[], false⟩).2 =
        some (.failedParseInt (trimSpaceBytes l))) := by
  refine ⟨fun l t h => ?_, stack.argsLoop_empty_stops, fun l pre p rest h => stack.argsLoop_bad l pre p rest _ h⟩
  rw [stack.argsLoop_good l _ _ h]
  simp

/-- Witness for C5 at concrete inputs: `0x10, ...` decodes to the single
argument 16 with the truncation mark set, and a `zz` piece after a good
piece is a hard error. -/
theorem claim_C5_witness :
    (∀ p ∈ splitCommaSpace "0x10, ...".data [], stack.goodPiece p) ∧
    stack.argsLoop "f(0x10, ...)".data (splitCommaSpace "0x10, ...".data []) ⟨[], false⟩ =
      (⟨[⟨16, false⟩], true⟩, none) ∧
    (stack.argsLoop "f(0x2, zz)".data (["0x2".data] ++ "zz".data :: []) ⟨[], false⟩).2 =
      some (.failedParseInt (trimSpaceBytes "f(0x2, zz)".data)) := by
  refine ⟨by decide, ?_, ?_⟩
  · rw [claim_C5.1 "f(0x10, ...)".data "0x10, ...".data (by decide)]
    decide
  · exact claim_C5.2.2 "f(0x2, zz)".data ["0x2".data] "zz".data [] (by decide) (by decide)
      (by decide) (by decide)

namespace stack

theorem scanNormalBody_line_irrel (s : ScanState) (l1 l2 t : List Char) :
    dropJunk (scanNormalBody s l1 t) = dropJunk (scanNormalBody s l2 t) := by
  unfold scanNormalBody
  repeat' split
  all_goals rfl

theorem scanGotFileFunc_line_irrel (s : ScanState) (l1 l2 t : List Char) :
    dropJunk (scanGotFileFunc s l1 t) = dropJunk (scanGotFileFunc s l2 t) := by
  unfold scanGotFileFunc
  repeat' split
  all_goals rfl

theorem scanGotFileCreated_line_irrel (s : ScanState) (l1 l2 t : List Char) :
    dropJunk (scanGotFileCreated s l1 t) = dropJunk (scanGotFileCreated s l2 t) := by
  unfold scanGotFileCreated
  repeat' split
  all_goals rfl

theorem scanGotRaceHeader1_line_irrel (s : ScanState) (l1 l2 t : List Char) :
    dropJunk (scanGotRaceHeader1 s l1 t) = dropJunk (scanGotRaceHeader1 s l2 t) := by
  unfold scanGotRaceHeader1
  repeat' split
  all_goals rfl

theorem scanGotRaceHeader2_line_irrel (s : ScanState) (l1 l2 t : List Char) :
    dropJunk (scanGotRaceHeader2 s l1 t) = dropJunk (scanGotRaceHeader2 s l2 t) := by
  unfold scanGotRaceHeader2
  cases hm : reRaceOperationHeader.amatch t with
  | none => rfl
  | some caps =>
    cases hA : parseUint0 (capGet caps 2) with
    | none => rfl
    | some addr =>
      cases hI : atou (capGet caps 3) with
      | none => rfl
      | some id => cases s.goroutines.isEmpty <;> rfl

/-- The bytes a scan step passes through are always `nil` or the line
itself; state, goroutines and error never depend on the raw line, only on
the trimmed text. -/
theorem scanSwitch_line_irrel (s : ScanState) (l1 l2 t : List Char) :
    dropJunk (scanSwitch s l1 t) = dropJunk (scanSwitch s l2 t) := by
  unfold scanSwitch
  cases s.state
  case normal => exact scanNormalBody_line_irrel s l1 l2 t
  case betweenRoutine => exact scanNormalBody_line_irrel s l1 l2 t
  case gotFileFunc => exact scanGotFileFunc_line_irrel s l1 l2 t
  case gotFileCreated => exact scanGotFileCreated_line_irrel s l1 l2 t
  case gotRaceHeader1 => exact scanGotRaceHeader1_line_irrel s l1 l2 t
  case gotRaceHeader2 => exact scanGotRaceHeader2_line_irrel s l1 l2 t
  all_goals rfl

theorem scanAfterTrim_line_irrel (s : ScanState) (l1 l2 t : List Char) :
    dropJunk (scanAfterTrim s l1 t) = dropJunk (scanAfterTrim s l2 t) := by
  unfold scanAfterTrim
  repeat' split
  · exact scanSwitch_line_irrel s l1 l2 t
  · exact scanSwitch_line_irrel s l1 l2 _
  · rfl

theorem endsWith_lf_false_crlf {l : List Char} (h : endsWith l lf = false) :
    endsWith l crlf = false := by
  by_contra hc
  rw [Bool.not_eq_false, endsWith, List.isSuffixOf_iff_suffix] at hc
  have hlf : lf <:+ l := List.IsSuffix.trans ⟨['\r'], rfl⟩ hc
  rw [endsWith, ← Bool.not_eq_true, List.isSuffixOf_iff_suffix] at h
  exact h hlf

theorem endsWith_append_lf (l : List Char) : endsWith (l ++ ['\n']) lf = true := by
  rw [endsWith, List.isSuffixOf_iff_suffix]
  exact ⟨l, rfl⟩

theorem endsWith_append_crlf {l : List Char} (h : l.getLast? ≠ some '\r') :
    endsWith (l ++ ['\n']) crlf = false := by
  by_contra hc
  rw [Bool.not_eq_false, endsWith, List.isSuffixOf_iff_suffix] at hc
  obtain ⟨t, ht⟩ := hc
  rw [show t ++ crlf = (t ++ ['\r']) ++ ['\n'] from by simp [crlf]] at ht
  have hl : t ++ ['\r'] = l := List.append_cancel_right ht
  rw [← hl] at h
  exact h (List.getLast?_concat t)

end stack

/-- C3 counterexample: the claim says a line not terminated by a newline is
still forwarded for classification when the scanner is in `normal`, and
otherwise let through unparsed.  The code does the opposite.  An
unterminated routine header in the `normal` state is passed through as junk
with no routine created — scanning the same bytes with a newline creates a
routine — while an unterminated file line in the `gotFunc` state *is*
parsed (the scanner advances to `gotFileFunc` and fills in the frame). -/
theorem claim_C3_counterexample :
    stack.scan ⟨[], .normal, [], 0⟩ "goroutine 1 [running]:".data =
      some (⟨[], .normal, [], 0⟩, "goroutine 1 [running]:".data, none) ∧
    (stack.scan ⟨[], .normal, [], 0⟩ "goroutine 1 [running]:\n".data).map
      (fun r => r.1.goroutines.length) = some 1 ∧
    stack.scan ⟨[⟨⟨"running".data, 0, 0, false, ⟨[stack.emptyCall], false⟩, ⟨[], false⟩⟩,
        1, true, false, 0⟩], .gotFunc, [], 0⟩ "\t/a.go:1".data =
      some (⟨[⟨⟨"running".data, 0, 0, false,
        ⟨[{ stack.emptyCall with srcPath := "/a.go".data, line := 1 }], false⟩, ⟨[], false⟩⟩,
        1, true, false, 0⟩], .gotFileFunc, [], 0⟩, [], none) := by
  refine ⟨by decide, by decide, by decide⟩

/-- C3 (amended): for every line not terminated by a newline: if the
scanner is in the `normal` state the partial line is passed through as-is
to the residual sink without being parsed (state, routines and prefix
unchanged, no error); in any other state the partial line is still
forwarded to the state machine for classification (it may be the true
final line of input), producing the same state, routines and error as the
newline-terminated line would. -/
theorem claim_C3 :
    (∀ (s : stack.ScanState) (line : List Char), endsWith line stack.lf = false →
      s.state = .normal → stack.scan s line = some (s, line, none)) ∧
    (∀ (s : stack.ScanState) (line : List Char), endsWith line stack.lf = false →
      s.state ≠ .normal → line.getLast? ≠ some '\r' →
      stack.dropJunk (stack.scan s line) = stack.dropJunk (stack.scan s (line ++ ['\n']))) := by
  constructor
  · intro s line hlf hst
    rw [stack.scan, stack.endsWith_lf_false_crlf hlf, hlf]
    simp [hst]
  · intro s line hlf hst hcr
    have h1 : stack.scan s line = stack.scanAfterTrim s line line := by
      rw [stack.scan, stack.endsWith_lf_false_crlf hlf, hlf]
      simp only [Bool.false_eq_true, if_false]
      rw [if_neg hst]
    have h2 : stack.scan s (line ++ ['\n']) =
        stack.scanAfterTrim s (line ++ ['\n']) line := by
      rw [stack.scan, stack.endsWith_append_crlf hcr, stack.endsWith_append_lf]
      simp only [Bool.false_eq_true, if_false, if_true]
      congr 1
      have : (line ++ ['\n']).length - 1 = line.length := by simp
      rw [this]
      exact List.take_left line ['\n']
    rw [h1, h2]
    exact stack.scanAfterTrim_line_irrel s line (line ++ ['\n']) line

/-- Witness for C3 at concrete inputs: an unterminated junk line in
`normal` is passed through untouched, and an unterminated file line in
`gotFunc` classifies exactly like its terminated form. -/
theorem claim_C3_witness :
    stack.scan ⟨[], .normal, [], 0⟩ "junk".data =
      some (⟨[], .normal, [], 0⟩, "junk".data, none) ∧
    stack.dropJunk (stack.scan ⟨[⟨⟨"running".data, 0, 0, false, ⟨[stack.emptyCall], false⟩,
        ⟨[], false⟩⟩, 1, true, false, 0⟩], .gotFunc, [], 0⟩ "\t/a.go:1".data) =
      stack.dropJunk (stack.scan ⟨[⟨⟨"running".data, 0, 0, false, ⟨[stack.emptyCall], false⟩,
        ⟨[], false⟩⟩, 1, true, false, 0⟩], .gotFunc, [], 0⟩ ("\t/a.go:1".data ++ ['\n'])) :=
  ⟨claim_C3.1 ⟨[], .normal, [], 0⟩ "junk".data (by decide) rfl,
   claim_C3.2 ⟨[⟨⟨"running".data, 0, 0, false, ⟨[stack.emptyCall], false⟩, ⟨[], false⟩⟩,
       1, true, false, 0⟩], .gotFunc, [], 0⟩ "\t/a.go:1".data (by decide) (by decide) (by decide)⟩

/-! ## Regexp-engine lemmas for the leading-whitespace capture -/

theorem countWhile_le_length (p : Char → Bool) : ∀ l : List Char, countWhile p l ≤ l.length := by
  intro l
  induction l with
  | nil => simp [countWhile]
  | cons c rest ih =>
    rw [countWhile]
    by_cases hp : p c
    · rw [if_pos hp]; simpa using ih
    · rw [if_neg hp]; simp

theorem take_countWhile (p : Char → Bool) : ∀ l : List Char, l.take (countWhile p l) = l.takeWhile p := by
  intro l
  induction l with
  | nil => simp [countWhile]
  | cons c rest ih =>
    rw [countWhile, List.takeWhile_cons]
    by_cases hp : p c
    · rw [if_pos hp, if_pos hp, List.take_succ_cons, ih]
    · rw [if_neg hp, if_neg hp, List.take_zero]

theorem lt_countWhile_head {p : Char → Bool} :
    ∀ (l : List Char) (m : Nat), m < countWhile p l →
      ∃ c rest, l.drop m = c :: rest ∧ p c = true := by
  intro l
  induction l with
  | nil => intro m h; rw [countWhile] at h; omega
  | cons c rest ih =>
    intro m h
    rw [countWhile] at h
    by_cases hp : p c
    · rw [if_pos hp] at h
      cases m with
      | zero => exact ⟨c, rest, rfl, hp⟩
      | succ m => exact ih m (Nat.lt_of_succ_lt_succ h)
    · rw [if_neg hp] at h; omega

theorem tryLens_some {s : List Char} {cs : Caps} {k : List Char → Caps → Option Caps} :
    ∀ n res, tryLens s cs k n = some res → ∃ m, k (s.drop m) cs = some res := by
  intro n
  induction n with
  | zero => intro res h; rw [tryLens] at h; exact ⟨0, by simpa using h⟩
  | succ n ih =>
    intro res h
    rw [tryLens] at h
    cases hk : k (s.drop (n + 1)) cs with
    | some r => rw [hk] at h; exact ⟨n + 1, hk.trans h⟩
    | none => rw [hk] at h; exact ih res h

theorem tryLens_eq_top {s : List Char} {cs : Caps} {k : List Char → Caps → Option Caps} :
    ∀ n, (∀ m, m < n → k (s.drop m) cs = none) → tryLens s cs k n = k (s.drop n) cs := by
  intro n
  induction n with
  | zero => intro _; rw [tryLens, List.drop_zero]
  | succ n ih =>
    intro hf
    rw [tryLens]
    cases hk : k (s.drop (n + 1)) cs with
    | some r => rfl
    | none =>
      rw [ih (fun m hm => hf m (Nat.lt_succ_of_lt hm)), hf n (Nat.lt_succ_self n)]

/-- On a successful match, the final continuation is invoked with the
incoming captures extended only by groups occurring in the pattern. -/
theorem Re.mtch_result_from_k :
    ∀ (r : Re) (s : List Char) (cs : Caps) (k : List Char → Caps → Option Caps) (res : Caps),
      r.mtch s cs k = some res →
      ∃ s2 ext, (∀ e ∈ ext, r.grpHas e.1 = true) ∧ k s2 (ext ++ cs) = some res := by
  intro r
  induction r with
  | eps =>
    intro s cs k res h
    exact ⟨s, [], by simp, by simpa [Re.mtch] using h⟩
  | eos =>
    intro s cs k res h
    rw [Re.mtch] at h
    by_cases he : s.isEmpty
    · rw [if_pos he] at h; exact ⟨s, [], by simp, by simpa using h⟩
    · rw [if_neg he] at h; exact absurd h (by simp)
  | lit l =>
    intro s cs k res h
    rw [Re.mtch] at h
    by_cases he : s.take l.length = l
    · rw [if_pos he] at h; exact ⟨s.drop l.length, [], by simp, by simpa using h⟩
    · rw [if_neg he] at h; exact absurd h (by simp)
  | cls p =>
    intro s cs k res h
    cases s with
    | nil => simp only [Re.mtch] at h; exact absurd h (by simp)
    | cons c rest =>
      simp only [Re.mtch] at h
      by_cases hp : p c
      · rw [if_pos hp] at h; exact ⟨rest, [], by simp, by simpa using h⟩
      · rw [if_neg hp] at h; exact absurd h (by simp)
  | cat a b iha ihb =>
    intro s cs k res h
    rw [Re.mtch] at h
    obtain ⟨s2, ext1, hk1, hK⟩ := iha s cs _ res h
    obtain ⟨s3, ext2, hk2, h2⟩ := ihb s2 (ext1 ++ cs) k res hK
    refine ⟨s3, ext2 ++ ext1, ?_, by rwa [← List.append_assoc] at h2⟩
    intro e he
    rw [Re.grpHas]
    rcases List.mem_append.mp he with h' | h'
    · rw [hk2 e h', Bool.or_true]
    · rw [hk1 e h', Bool.true_or]
  | alt a b iha ihb =>
    intro s cs k res h
    simp only [Re.mtch] at h
    cases ha : a.mtch s cs k with
    | some r' =>
      rw [ha] at h
      obtain ⟨s2, ext, hk, h2⟩ := iha s cs k res (ha.trans h)
      exact ⟨s2, ext, fun e he => by rw [Re.grpHas, hk e he, Bool.true_or], h2⟩
    | none =>
      rw [ha] at h
      obtain ⟨s2, ext, hk, h2⟩ := ihb s cs k res h
      exact ⟨s2, ext, fun e he => by rw [Re.grpHas, hk e he, Bool.or_true], h2⟩
  | star p =>
    intro s cs k res h
    simp only [Re.mtch] at h
    obtain ⟨m, hm⟩ := tryLens_some _ res h
    exact ⟨s.drop m, [], by simp, by simpa using hm⟩
  | plus p =>
    intro s cs k res h
    cases s with
    | nil => simp only [Re.mtch] at h; exact absurd h (by simp)
    | cons c rest =>
      simp only [Re.mtch] at h
      by_cases hp : p c
      · rw [if_pos hp] at h
        obtain ⟨m, hm⟩ := tryLens_some _ res h
        exact ⟨rest.drop m, [], by simp, by simpa using hm⟩
      · rw [if_neg hp] at h; exact absurd h (by simp)
  | grp m r ihr =>
    intro s cs k res h
    simp only [Re.mtch] at h
    obtain ⟨s2, ext1, hk, hK⟩ := ihr s cs _ res h
    refine ⟨s2, (m, s.take (s.length - s2.length)) :: ext1, ?_, by simpa using hK⟩
    intro e he
    rw [Re.grpHas]
    rcases List.mem_cons.mp he with h' | h'
    · rw [h']; simp
    · rw [hk e h', Bool.or_true]

/-- A pattern beginning with a literal fails when the input does not start
with that literal. -/
theorem Re.mtch_cat_lit_ne {L : List Char} {b : Re} {s : List Char} {cs : Caps}
    {k : List Char → Caps → Option Caps} (h : s.take L.length ≠ L) :
    (Re.cat (.lit L) b).mtch s cs k = none := by
  simp only [Re.mtch]
  rw [if_neg h]

namespace stack

/-- In a successful routine-header match, group 1 is exactly the leading
run of spaces and tabs of the matched text. -/
theorem routineHeader_cap1 {t : List Char} {caps : Caps}
    (h : reRoutineHeader.amatch t = some caps) :
    capGet caps 1 = t.takeWhile isSpaceTab := by
  have h' : tryLens t []
      (fun s2 cs2 => Re.mtch reRoutineHeaderTail s2
        ((1, t.take (t.length - s2.length)) :: cs2) (fun _ cs => some cs))
      (countWhile isSpaceTab t) = some caps := h
  have hfail : ∀ m, m < countWhile isSpaceTab t →
      Re.mtch reRoutineHeaderTail (t.drop m)
        ((1, t.take (t.length - (t.drop m).length)) :: []) (fun _ cs => some cs) = none := by
    intro m hm
    obtain ⟨c, rest, hd, hp⟩ := lt_countWhile_head t m hm
    rw [hd]
    unfold reRoutineHeaderTail
    apply Re.mtch_cat_lit_ne
    intro heq
    have hc : c = 'g' := by
      have h2 := congrArg List.head? heq
      simpa using h2
    rw [hc] at hp
    simp [isSpaceTab] at hp
  rw [tryLens_eq_top _ hfail] at h'
  have hcw : countWhile isSpaceTab t ≤ t.length := countWhile_le_length _ t
  have hlen : t.length - (t.drop (countWhile isSpaceTab t)).length = countWhile isSpaceTab t := by
    rw [List.length_drop]
    omega
  rw [hlen, take_countWhile] at h'
  obtain ⟨s2, ext, hext, hk0⟩ := Re.mtch_result_from_k _ _ _ _ _ h'
  have hcaps : caps = ext ++ [(1, t.takeWhile isSpaceTab)] := by
    have h3 := hk0
    simp only at h3
    exact (Option.some.injEq _ _ ▸ h3).symm
  subst hcaps
  rw [capGet, List.find?_append]
  have hnone : ext.find? (fun x => x.1 = 1) = none := by
    rw [List.find?_eq_none]
    intro e he
    have hg := hext e he
    simp only [decide_eq_true_eq]
    intro h1
    rw [h1] at hg
    exact absurd hg (by decide)
  rw [hnone]
  rfl

end stack

/-- C4 counterexample: the claim says the leading whitespace of a block's
header line becomes the expected prefix of its subsequent lines, any
violation being a fatal "inconsistent indentation" error.  But the prefix
check strips the *previously* recorded prefix before the header is matched,
and only the remaining whitespace is recorded.  Concretely: with prefix
`"  "` recorded from an earlier indented block, the header
`"  goroutine 2 [running]:"` records the empty prefix rather than its
leading whitespace `"  "`, and the following line `"main.g()"` — which does
not start with `"  "` — is accepted with no error instead of failing. -/
theorem claim_C4_counterexample :
    stack.scan ⟨[⟨⟨"running".data, 0, 0, false, ⟨[], false⟩, ⟨[], false⟩⟩, 1, true, false, 0⟩],
        .betweenRoutine, "  ".data, 0⟩ "  goroutine 2 [running]:\n".data =
      some (⟨[⟨⟨"running".data, 0, 0, false, ⟨[], false⟩, ⟨[], false⟩⟩, 1, true, false, 0⟩,
          ⟨⟨"running".data, 0, 0, false, ⟨[], false⟩, ⟨[], false⟩⟩, 2, false, false, 0⟩],
        .gotRoutineHeader, [], 0⟩, [], none) ∧
    (stack.scan ⟨[⟨⟨"running".data, 0, 0, false, ⟨[], false⟩, ⟨[], false⟩⟩, 1, true, false, 0⟩,
          ⟨⟨"running".data, 0, 0, false, ⟨[], false⟩, ⟨[], false⟩⟩, 2, false, false, 0⟩],
        .gotRoutineHeader, [], 0⟩ "main.g()\n".data).map
      (fun r => (r.1.state, r.2.2)) = some (.gotFunc, none) := by
  refine ⟨by decide, by decide⟩

/-- C4 (amended): when a routine header is recognized from `normal` or
`betweenRoutine`, the leading whitespace of the header line *as seen after
stripping the previously recorded prefix* is recorded as the expected
prefix (for a block opened with no recorded prefix this is exactly the
header's leading whitespace); and every nonempty line scanned while a
nonempty prefix is recorded that does not start with that exact prefix is
a fatal "inconsistent indentation" error that resets the scanner to
`normal` and clears the prefix. -/
theorem claim_C4 :
    (∀ (s : stack.ScanState) (line : List Char) (caps : Caps) (id : Nat),
      (s.state = .normal ∨ s.state = .betweenRoutine) →
      endsWith line stack.lf = true →
      endsWith line stack.crlf = false →
      (s.pfx ≠ [] → (s.pfx.isPrefixOf (line.take (line.length - 1)) = true ∧
        line.take (line.length - 1) ≠ [])) →
      stack.reRoutineHeader.amatch ((line.take (line.length - 1)).drop s.pfx.length) = some caps →
      stack.atou (capGet caps 2) = some id →
      ∃ g, stack.scan s line =
        some (⟨s.goroutines ++ [g], .gotRoutineHeader,
          ((line.take (line.length - 1)).drop s.pfx.length).takeWhile isSpaceTab,
          s.goroutineIndex⟩, [], none)) ∧
    (∀ (s : stack.ScanState) (line t : List Char),
      t ≠ [] → s.pfx ≠ [] → s.pfx.isPrefixOf t = false →
      stack.scanAfterTrim s line t =
        some (⟨s.goroutines, .normal, [], s.goroutineIndex⟩, [],
          some (.inconsistentIndentation t s.pfx))) := by
  constructor
  · intro s line caps id hst hlf hcrlf hpfx hm hid
    rw [stack.scan, hcrlf, hlf]
    simp only [Bool.false_eq_true, if_false, if_true]
    rw [stack.scanAfterTrim]
    by_cases hp : s.pfx = []
    · rw [if_pos (Or.inr (by rw [hp]; rfl))]
      rw [hp] at hm ⊢
      simp only [List.length_nil, List.drop_zero] at hm ⊢
      rw [show stack.scanSwitch s line (line.take (line.length - 1)) =
          stack.scanNormalBody s line (line.take (line.length - 1)) from by
        rcases hst with h | h <;> (rw [stack.scanSwitch, h])]
      simp only [stack.scanNormalBody, hm, hid]
      rw [stack.routineHeader_cap1 hm]
      exact ⟨_, rfl⟩
    · obtain ⟨hpre, htne⟩ := hpfx hp
      rw [if_neg, if_pos hpre]
      · rw [show stack.scanSwitch s line ((line.take (line.length - 1)).drop s.pfx.length) =
            stack.scanNormalBody s line ((line.take (line.length - 1)).drop s.pfx.length) from by
          rcases hst with h | h <;> (rw [stack.scanSwitch, h])]
        simp only [stack.scanNormalBody, hm, hid]
        rw [stack.routineHeader_cap1 hm]
        exact ⟨_, rfl⟩
      · rw [not_or]
        constructor
        · simpa [List.isEmpty_iff] using htne
        · simpa [List.isEmpty_iff] using hp
  · intro s line t htne hpne hnp
    rw [stack.scanAfterTrim, if_neg, if_neg]
    · rw [hnp]; simp
    · rw [not_or]
      exact ⟨by simpa [List.isEmpty_iff] using htne, by simpa [List.isEmpty_iff] using hpne⟩

/-- Witness for C4 at concrete inputs: scanning the indented header
`"  goroutine 7 [running]:"` from the initial state records `"  "` as the
prefix, and a line that does not start with the recorded `"\t"` prefix is
the fatal inconsistent-indentation error. -/
theorem claim_C4_witness :
    (∃ g, stack.scan ⟨[], .normal, [], 0⟩ "  goroutine 7 [running]:\n".data =
      some (⟨[g], .gotRoutineHeader, "  ".data, 0⟩, [], none)) ∧
    stack.scanAfterTrim ⟨[], .gotFunc, "\t".data, 0⟩ "x".data "x".data =
      some (⟨[], .normal, [], 0⟩, [], some (.inconsistentIndentation "x".data "\t".data)) :=
  ⟨claim_C4.1 ⟨[], .normal, [], 0⟩ "  goroutine 7 [running]:\n".data
      [(3, "running".data), (2, "7".data), (1, "  ".data)] 7
      (Or.inl rfl) (by decide) (by decide) (fun h => absurd rfl h) (by decide) (by decide),
   claim_C4.2 ⟨[], .gotFunc, "\t".data, 0⟩ "x".data "x".data (by decide) (by decide) (by decide)⟩

theorem take_len_drop : ∀ (l : List Char) (n : Nat), l.take n ++ l.drop (l.take n).length = l := by
  intro l n
  rw [List.length_take]
  by_cases h : n ≤ l.length
  · rw [Nat.min_eq_left h, List.take_append_drop]
  · have h2 : l.length ≤ n := Nat.le_of_not_le h
    rw [Nat.min_eq_right h2, List.take_of_length_le h2, List.drop_length, List.append_nil]

theorem readSlice_take (l : List Char) :
    ∃ m, (stack.readSlice l).1 = l.take m ∧ (l ≠ [] → 1 ≤ m) := by
  rw [stack.readSlice]
  cases hf : (l.take 16384).findIdx? (fun c => c = '\n') with
  | some i => exact ⟨i + 1, rfl, fun _ => Nat.succ_le_succ (Nat.zero_le i)⟩
  | none =>
    by_cases hl : 16384 ≤ l.length
    · rw [if_pos hl]; exact ⟨16384, rfl, fun _ => by omega⟩
    · rw [if_neg hl]
      refine ⟨l.length, (List.take_length l).symm, fun h => ?_⟩
      cases l with
      | nil => exact absurd rfl h
      | cons a b => simp

theorem readSlice_eof {l : List Char} (h : (stack.readSlice l).2 = some .eof) :
    (stack.readSlice l).1 = l := by
  cases hf : (l.take 16384).findIdx? (fun c => c = '\n') with
  | some i =>
    rw [stack.readSlice] at h
    simp only [hf] at h
    exact absurd h (by simp)
  | none =>
    rw [stack.readSlice] at h ⊢
    simp only [hf] at h ⊢
    by_cases hl : 16384 ≤ l.length
    · rw [if_pos hl] at h
      simp at h
    · rw [if_neg hl]

theorem scanAfterTrim_junk (gi : Nat) {t : List Char} (l : List Char)
    (hm : stack.reRoutineHeader.amatch t = none) (hb : t ≠ stack.raceHeaderFooter) :
    stack.scanAfterTrim ⟨[], .normal, [], gi⟩ l t = some (⟨[], .normal, [], gi⟩, l, none) := by
  have hcond : t.isEmpty = true ∨
      (stack.ScanState.pfx ⟨[], .normal, [], gi⟩).isEmpty = true := Or.inr rfl
  rw [stack.scanAfterTrim, if_pos hcond]
  simp only [stack.scanSwitch, stack.scanNormalBody, hm]
  rw [if_neg hb]

/-- A junk chunk scanned from the initial-shaped state passes through
unchanged: same state, the chunk to the sink, no error. -/
theorem scan_junk_normal (gi : Nat) {l : List Char} (h : isJunkSlice l) :
    stack.scan ⟨[], .normal, [], gi⟩ l = some (⟨[], .normal, [], gi⟩, l, none) := by
  obtain ⟨hm, hb⟩ := h
  rw [stack.scan]
  by_cases hc : endsWith l stack.crlf
  · rw [stripEOL, if_pos hc] at hm hb
    rw [hc, if_pos rfl]
    exact scanAfterTrim_junk gi l hm hb
  · rw [stripEOL, if_neg hc] at hm hb
    rw [eq_false_of_ne_true (fun h2 => hc h2)]
    simp only [Bool.false_eq_true, if_false]
    by_cases hlf : endsWith l stack.lf
    · rw [if_pos hlf] at hm hb
      rw [hlf, if_pos rfl]
      exact scanAfterTrim_junk gi l hm hb
    · rw [eq_false_of_ne_true (fun h2 => hlf h2)]
      simp only [Bool.false_eq_true, if_false]
      simp

/-- The `parseDump` loop over junk-only input from the initial-shaped
state: every chunk is streamed to the sink, no goroutine and no error. -/
theorem parseDumpGo_junk :
    ∀ (fuel : Nat) (input : List Char) (gi : Nat) (wasLong : Bool) (out : List Char),
      input.length ≤ fuel → JunkOnly input →
      stack.parseDumpGo fuel input ⟨[], .normal, [], gi⟩ wasLong out =
        .ok [] none (out ++ input) := by
  intro fuel
  induction fuel with
  | zero =>
    intro input gi wasLong out hlen _
    have hnil : input = [] := List.eq_nil_of_length_eq_zero (Nat.le_zero.mp hlen)
    subst hnil
    rw [stack.parseDumpGo, stack.finishEOF, scan_junk_normal gi (by decide)]
  | succ fuel ih =>
    intro input gi wasLong out hlen hj
    cases input with
    | nil => rw [stack.parseDumpGo, stack.finishEOF, scan_junk_normal gi (by decide)]
    | cons c cs =>
      obtain ⟨m, hm1, hm2⟩ := readSlice_take (c :: cs)
      have hs1 : 1 ≤ ((stack.readSlice (c :: cs)).1).length := by
        rw [hm1, List.length_take]
        have := hm2 (by simp)
        simp only [List.length_cons]
        omega
      have hslen : ((stack.readSlice (c :: cs)).1).length ≤ (c :: cs).length := by
        rw [hm1, List.length_take]
        omega
      have hjoin : (stack.readSlice (c :: cs)).1 ++
          (c :: cs).drop ((stack.readSlice (c :: cs)).1).length = c :: cs := by
        rw [hm1]
        exact take_len_drop (c :: cs) m
      have hrem_len : ((c :: cs).drop ((stack.readSlice (c :: cs)).1).length).length ≤ fuel := by
        rw [List.length_drop]
        omega
      have hrem_junk : JunkOnly ((c :: cs).drop ((stack.readSlice (c :: cs)).1).length) := by
        intro n hn
        rw [List.drop_drop]
        apply hj
        rw [List.length_drop] at hn
        omega
      have hjunk0 : isJunkSlice (stack.readSlice (c :: cs)).1 := by
        have := hj 0 (by simp)
        rwa [List.drop_zero] at this
      rcases hrs : stack.readSlice (c :: cs) with ⟨slice, rerr⟩
      rw [hrs] at hs1 hslen hjoin hrem_len hrem_junk hjunk0
      simp only at hs1 hslen hjoin hrem_len hrem_junk hjunk0
      rw [stack.parseDumpGo, hrs]
      simp only
      by_cases hbw : (rerr = some stack.ReadErr.bufferFull ∨ wasLong = true)
      · rw [if_pos hbw]
        rw [ih _ gi _ _ hrem_len hrem_junk]
        rw [List.append_assoc, hjoin]
      · rw [if_neg hbw]
        rw [scan_junk_normal gi hjunk0]
        simp only
        cases rerr with
        | none =>
          rw [ih _ gi _ _ hrem_len hrem_junk]
          rw [List.append_assoc, hjoin]
        | some re =>
          cases re with
          | eof =>
            have hall : slice = c :: cs := by
              have := readSlice_eof (l := c :: cs) (by rw [hrs])
              rw [hrs] at this
              exact this
            rw [hall]
          | bufferFull => exact absurd (Or.inl rfl) hbw

/-- C1: `ParseDump` returns a nil context and a nil error when the input
contains no recognizable trace at all (every chunk is junk: no routine
header, no race banner), with the whole input streamed to the residual
sink; and on an input whose final line is a call line with no following
file line, it returns the format error *alongside* the routines parsed
before the failure — here the fully parsed first routine (and the second
routine's partial record). -/
theorem claim_C1 :
    (∀ input, JunkOnly input → stack.ParseDump input = .ok none none input) ∧
    stack.parseDump c1input =
      .ok [c1routine1, c1routine2] (some (.expectedFileAfterFunc [])) [] ∧
    stack.ParseDump c1input =
      .ok (some ⟨[c1routine1, c1routine2]⟩) (some (.expectedFileAfterFunc [])) [] := by
  refine ⟨?_, by decide, by decide⟩
  intro input hj
  rw [stack.ParseDump, stack.parseDump,
    parseDumpGo_junk input.length input 0 false [] (le_refl _) hj]
  simp

/-- Witness for C1 at a concrete junk-only input. -/
theorem claim_C1_witness :
    JunkOnly "log line one\nlog line two\n".data ∧
    stack.ParseDump "log line one\nlog line two\n".data =
      .ok none none "log line one\nlog line two\n".data :=
  ⟨by decide, claim_C1.1 "log line one\nlog line two\n".data (by decide)⟩

/-! ## The First-flag discipline and its preservation (C10) -/

namespace stack

theorem invOfNotNeedy {gs : List Goroutine} {st : SState} {p : List Char} {gi : Nat}
    (h1 : firstOK gs) (h2 : st.needsGoroutines = false) :
    scanInvariant ⟨gs, st, p, gi⟩ :=
  ⟨h1, fun hc => absurd (h2.symm.trans hc) Bool.false_ne_true⟩

theorem invOfNeedy {gs : List Goroutine} {st : SState} {p : List Char} {gi : Nat}
    (h1 : firstOK gs) (h2 : gs ≠ []) : scanInvariant ⟨gs, st, p, gi⟩ :=
  ⟨h1, fun _ => h2⟩

theorem isEmpty_false_of_ne_nil {gs : List Goroutine} (h : gs ≠ []) :
    gs.isEmpty = false := by
  cases gs with
  | nil => exact absurd rfl h
  | cons a b => rfl

theorem setLast_ne_nil (gs : List Goroutine) (g : Goroutine) : setLast gs g ≠ [] := by
  simp [setLast]

theorem firstOK_append {gs : List Goroutine} {g : Goroutine}
    (hok : firstOK gs) (hg : g.first = gs.isEmpty) : firstOK (gs ++ [g]) := by
  cases gs with
  | nil => exact ⟨hg, by simp⟩
  | cons g0 rest =>
    obtain ⟨h1, h2⟩ := hok
    refine ⟨h1, ?_⟩
    intro h hh
    rcases List.mem_append.mp hh with hm | hm
    · exact h2 h hm
    · rw [List.mem_singleton.mp hm]
      exact hg

theorem firstOK_setLast {gs : List Goroutine} {g gq : Goroutine}
    (hok : firstOK gs) (hlast : gs.getLast? = some g) (hfirst : gq.first = g.first) :
    firstOK (setLast gs gq) := by
  cases gs with
  | nil => simp at hlast
  | cons g0 rest =>
    obtain ⟨h1, h2⟩ := hok
    cases rest with
    | nil =>
      have hg : g0 = g := by simpa using hlast
      refine ⟨?_, by simp⟩
      rw [hfirst, ← hg]
      exact h1
    | cons g1 rest2 =>
      have hl2 : (g1 :: rest2).getLast? = some g := hlast
      have hgmem : g ∈ g1 :: rest2 := List.mem_of_mem_getLast? hl2
      refine ⟨h1, ?_⟩
      intro h hh
      rcases List.mem_append.mp hh with hm | hm
      · exact h2 h ((List.dropLast_sublist (g1 :: rest2)).subset hm)
      · rw [List.mem_singleton.mp hm, hfirst]
        exact h2 g hgmem

theorem firstOK_set {gs : List Goroutine} {i : Nat} {g gq : Goroutine}
    (hok : firstOK gs) (hget : gs.get? i = some g) (hfirst : gq.first = g.first) :
    firstOK (gs.set i gq) := by
  cases gs with
  | nil => simp at hget
  | cons g0 rest =>
    obtain ⟨h1, h2⟩ := hok
    cases i with
    | zero =>
      have hg : g0 = g := by simpa using hget
      refine ⟨?_, h2⟩
      rw [hfirst, ← hg]
      exact h1
    | succ i =>
      have hget2 : rest.get? i = some g := hget
      refine ⟨h1, ?_⟩
      intro h hh
      rcases List.mem_or_eq_of_mem_set hh with hm | hm
      · exact h2 h hm
      · rw [hm, hfirst]
        exact h2 g (List.get?_mem hget2)

theorem firstOK_filter_le_one {gs : List Goroutine} (h : firstOK gs) :
    (gs.filter (fun g => g.first)).length ≤ 1 := by
  cases gs with
  | nil => simp
  | cons g rest =>
    obtain ⟨h1, h2⟩ := h
    have hrest : rest.filter (fun g => g.first) = [] := by
      rw [List.filter_eq_nil_iff]
      intro a ha
      simp [h2 a ha]
    rw [List.filter_cons, hrest]
    split <;> simp

theorem firstOK_iff_get : ∀ (gs : List Goroutine),
    firstOK gs ↔ ∀ i g, gs.get? i = some g → (g.first = true ↔ i = 0) := by
  intro gs
  cases gs with
  | nil =>
    constructor
    · intro _ i g hg
      simp at hg
    · intro _
      exact trivial
  | cons g0 rest =>
    constructor
    · rintro ⟨h1, h2⟩ i g hg
      cases i with
      | zero =>
        have hg0 : g0 = g := by simpa using hg
        rw [← hg0]
        simp [h1]
      | succ i =>
        have hg2 : rest.get? i = some g := hg
        have hf := h2 g (List.get?_mem hg2)
        simp [hf]
    · intro hA
      refine ⟨(hA 0 g0 rfl).mpr rfl, ?_⟩
      intro h hh
      obtain ⟨i, hi⟩ := List.mem_iff_get?.mp hh
      have hi2 : (g0 :: rest).get? (i + 1) = some h := hi
      have hiff := hA (i + 1) h hi2
      cases hf : h.first
      · rfl
      · exact absurd (hiff.mp hf) (Nat.succ_ne_zero i)

end stack

namespace stack

theorem scanNormalBody_inv {s : ScanState} {l t : List Char}
    {r : ScanState × List Char × Option ScanErr}
    (hinv : scanInvariant s) (h : scanNormalBody s l t = some r) :
    scanInvariant r.1 := by
  cases hm : reRoutineHeader.amatch t with
  | some caps =>
    cases hid : atou (capGet caps 2) with
    | some id =>
      rcases hsl : sleepLock (splitCommaSpace (capGet caps 3) []).tail 0 false with ⟨sl, lk⟩
      simp only [scanNormalBody, hm, hid, hsl] at h
      obtain rfl := Option.some.inj h
      exact invOfNotNeedy (firstOK_append hinv.1 rfl) rfl
    | none =>
      simp only [scanNormalBody, hm, hid] at h
      split at h
      · obtain rfl := Option.some.inj h
        exact invOfNotNeedy hinv.1 rfl
      · obtain rfl := Option.some.inj h
        exact invOfNotNeedy hinv.1 rfl
  | none =>
    simp only [scanNormalBody, hm] at h
    split at h
    · obtain rfl := Option.some.inj h
      exact invOfNotNeedy hinv.1 rfl
    · obtain rfl := Option.some.inj h
      exact invOfNotNeedy hinv.1 rfl

theorem scanGotRoutineHeader_inv {s : ScanState} {t : List Char}
    {r : ScanState × List Char × Option ScanErr}
    (hinv : scanInvariant s) (h : scanGotRoutineHeader s t = some r) :
    scanInvariant r.1 := by
  cases hu : (reUnavail.amatch t).isSome with
  | true =>
    cases hl : s.goroutines.getLast? with
    | none =>
      simp only [scanGotRoutineHeader, hu, hl, if_true] at h
      exact Option.noConfusion h
    | some cur =>
      simp only [scanGotRoutineHeader, hu, hl, if_true] at h
      obtain rfl := Option.some.inj h
      exact invOfNotNeedy (firstOK_setLast hinv.1 hl rfl) rfl
  | false =>
    cases hp : parseFunc t with
    | none =>
      simp only [scanGotRoutineHeader, hu, hp, Bool.false_eq_true, if_false] at h
      obtain rfl := Option.some.inj h
      exact hinv
    | some pr =>
      obtain ⟨c, err⟩ := pr
      cases hl : s.goroutines.getLast? with
      | none =>
        simp only [scanGotRoutineHeader, hu, hp, hl, Bool.false_eq_true, if_false] at h
        exact Option.noConfusion h
      | some cur =>
        simp only [scanGotRoutineHeader, hu, hp, hl, Bool.false_eq_true, if_false] at h
        obtain rfl := Option.some.inj h
        exact invOfNotNeedy (firstOK_setLast hinv.1 hl rfl) rfl

theorem scanGotFunc_inv {s : ScanState} {t : List Char}
    {r : ScanState × List Char × Option ScanErr}
    (hinv : scanInvariant s) (h : scanGotFunc s t = some r) :
    scanInvariant r.1 := by
  cases hl : s.goroutines.getLast? with
  | none =>
    simp only [scanGotFunc, hl] at h
    exact Option.noConfusion h
  | some cur =>
    cases hc : cur.signature.stack.calls.getLast? with
    | none =>
      simp only [scanGotFunc, hl, hc] at h
      exact Option.noConfusion h
    | some lastCall =>
      rcases hp : parseFile lastCall t with ⟨found, c2, e2⟩
      cases e2 with
      | some e =>
        simp only [scanGotFunc, hl, hc, hp] at h
        obtain rfl := Option.some.inj h
        exact hinv
      | none =>
        cases found with
        | false =>
          simp only [scanGotFunc, hl, hc, hp] at h
          obtain rfl := Option.some.inj h
          exact hinv
        | true =>
          simp only [scanGotFunc, hl, hc, hp] at h
          obtain rfl := Option.some.inj h
          exact invOfNotNeedy (firstOK_setLast hinv.1 hl rfl) rfl

theorem scanGotCreated_inv {s : ScanState} {t : List Char}
    {r : ScanState × List Char × Option ScanErr}
    (hinv : scanInvariant s) (h : scanGotCreated s t = some r) :
    scanInvariant r.1 := by
  cases hl : s.goroutines.getLast? with
  | none =>
    simp only [scanGotCreated, hl] at h
    exact Option.noConfusion h
  | some cur =>
    cases hc : cur.signature.createdBy.calls.head? with
    | none =>
      simp only [scanGotCreated, hl, hc] at h
      exact Option.noConfusion h
    | some c0 =>
      rcases hp : parseFile c0 t with ⟨found, c2, e2⟩
      cases e2 with
      | some e =>
        simp only [scanGotCreated, hl, hc, hp] at h
        obtain rfl := Option.some.inj h
        exact hinv
      | none =>
        cases found with
        | false =>
          simp only [scanGotCreated, hl, hc, hp] at h
          obtain rfl := Option.some.inj h
          exact hinv
        | true =>
          simp only [scanGotCreated, hl, hc, hp] at h
          obtain rfl := Option.some.inj h
          exact invOfNotNeedy (firstOK_setLast hinv.1 hl rfl) rfl

end stack

namespace stack

theorem scanGotFileFunc_inv {s : ScanState} {l t : List Char}
    {r : ScanState × List Char × Option ScanErr}
    (hinv : scanInvariant s) (h : scanGotFileFunc s l t = some r) :
    scanInvariant r.1 := by
  cases hm : reCreated.amatch t with
  | some caps =>
    cases hl : s.goroutines.getLast? with
    | none =>
      simp only [scanGotFileFunc, hm, hl] at h
      exact Option.noConfusion h
    | some cur =>
      cases hf : Func.Init (capGet caps 1) with
      | error e =>
        simp only [scanGotFileFunc, hm, hl, hf] at h
        obtain rfl := Option.some.inj h
        exact invOfNeedy (firstOK_setLast hinv.1 hl rfl) (setLast_ne_nil _ _)
      | ok fn =>
        simp only [scanGotFileFunc, hm, hl, hf] at h
        obtain rfl := Option.some.inj h
        exact invOfNotNeedy (firstOK_setLast hinv.1 hl rfl) rfl
  | none =>
    by_cases hfe : t = framesElided
    · cases hl : s.goroutines.getLast? with
      | none =>
        simp only [scanGotFileFunc, hm, hfe, eq_self_iff_true, if_true, hl] at h
        exact Option.noConfusion h
      | some cur =>
        simp only [scanGotFileFunc, hm, hfe, eq_self_iff_true, if_true, hl] at h
        obtain rfl := Option.some.inj h
        exact invOfNeedy (firstOK_setLast hinv.1 hl rfl) (setLast_ne_nil _ _)
    · cases hp : parseFunc t with
      | some pr =>
        obtain ⟨c, err⟩ := pr
        cases hl : s.goroutines.getLast? with
        | none =>
          simp only [scanGotFileFunc, hm, hfe, if_false, hp, hl] at h
          exact Option.noConfusion h
        | some cur =>
          simp only [scanGotFileFunc, hm, hfe, if_false, hp, hl] at h
          obtain rfl := Option.some.inj h
          exact invOfNotNeedy (firstOK_setLast hinv.1 hl rfl) rfl
      | none =>
        cases hte : t.isEmpty with
        | true =>
          simp only [scanGotFileFunc, hm, hfe, if_false, hp, hte, if_true] at h
          obtain rfl := Option.some.inj h
          exact invOfNotNeedy hinv.1 rfl
        | false =>
          simp only [scanGotFileFunc, hm, hfe, if_false, hp, hte,
            Bool.false_eq_true] at h
          obtain rfl := Option.some.inj h
          exact invOfNotNeedy hinv.1 rfl

theorem scanGotFileCreated_inv {s : ScanState} {l t : List Char}
    {r : ScanState × List Char × Option ScanErr}
    (hinv : scanInvariant s) (h : scanGotFileCreated s l t = some r) :
    scanInvariant r.1 := by
  cases hte : t.isEmpty with
  | true =>
    simp only [scanGotFileCreated, hte, if_true] at h
    obtain rfl := Option.some.inj h
    exact invOfNotNeedy hinv.1 rfl
  | false =>
    simp only [scanGotFileCreated, hte, Bool.false_eq_true, if_false] at h
    obtain rfl := Option.some.inj h
    exact invOfNotNeedy hinv.1 rfl

theorem scanGotUnavail_inv {s : ScanState} {t : List Char}
    {r : ScanState × List Char × Option ScanErr}
    (hinv : scanInvariant s) (h : scanGotUnavail s t = some r) :
    scanInvariant r.1 := by
  cases hte : t.isEmpty with
  | true =>
    simp only [scanGotUnavail, hte, if_true] at h
    obtain rfl := Option.some.inj h
    exact invOfNotNeedy hinv.1 rfl
  | false =>
    cases hm : reCreated.amatch t with
    | none =>
      simp only [scanGotUnavail, hte, Bool.false_eq_true, if_false, hm] at h
      obtain rfl := Option.some.inj h
      exact hinv
    | some caps =>
      cases hl : s.goroutines.getLast? with
      | none =>
        simp only [scanGotUnavail, hte, Bool.false_eq_true, if_false, hm, hl] at h
        exact Option.noConfusion h
      | some cur =>
        cases hf : Func.Init (capGet caps 1) with
        | error e =>
          simp only [scanGotUnavail, hte, Bool.false_eq_true, if_false, hm, hl, hf] at h
          obtain rfl := Option.some.inj h
          exact invOfNeedy (firstOK_setLast hinv.1 hl rfl) (setLast_ne_nil _ _)
        | ok fn =>
          simp only [scanGotUnavail, hte, Bool.false_eq_true, if_false, hm, hl, hf] at h
          obtain rfl := Option.some.inj h
          exact invOfNotNeedy (firstOK_setLast hinv.1 hl rfl) rfl

theorem scanGotRaceHeader1_inv {s : ScanState} {l t : List Char}
    {r : ScanState × List Char × Option ScanErr}
    (hinv : scanInvariant s) (h : scanGotRaceHeader1 s l t = some r) :
    scanInvariant r.1 := by
  by_cases hr : t = raceHeader
  · simp only [scanGotRaceHeader1, hr, eq_self_iff_true, if_true] at h
    obtain rfl := Option.some.inj h
    exact invOfNotNeedy hinv.1 rfl
  · simp only [scanGotRaceHeader1, hr, if_false] at h
    obtain rfl := Option.some.inj h
    exact invOfNotNeedy hinv.1 rfl

theorem scanGotRaceHeader2_inv {s : ScanState} {l t : List Char}
    {r : ScanState × List Char × Option ScanErr}
    (hinv : scanInvariant s) (h : scanGotRaceHeader2 s l t = some r) :
    scanInvariant r.1 := by
  cases hm : reRaceOperationHeader.amatch t with
  | none =>
    simp only [scanGotRaceHeader2, hm] at h
    obtain rfl := Option.some.inj h
    exact invOfNotNeedy hinv.1 rfl
  | some caps =>
    cases ha : parseUint0 (capGet caps 2) with
    | none =>
      simp only [scanGotRaceHeader2, hm, ha] at h
      obtain rfl := Option.some.inj h
      exact hinv
    | some addr =>
      cases hi : atou (capGet caps 3) with
      | none =>
        simp only [scanGotRaceHeader2, hm, ha, hi] at h
        obtain rfl := Option.some.inj h
        exact hinv
      | some id =>
        cases he : s.goroutines.isEmpty with
        | false =>
          simp only [scanGotRaceHeader2, hm, ha, hi, he, Bool.false_eq_true,
            if_false] at h
          exact Option.noConfusion h
        | true =>
          simp only [scanGotRaceHeader2, hm, ha, hi, he, if_true] at h
          obtain rfl := Option.some.inj h
          exact invOfNotNeedy ⟨rfl, by simp⟩ rfl

end stack

namespace stack

theorem scanGotRaceOperationHeader_inv {s : ScanState} {t : List Char}
    {r : ScanState × List Char × Option ScanErr}
    (hinv : scanInvariant s) (h : scanGotRaceOperationHeader s t = some r) :
    scanInvariant r.1 := by
  cases hp : parseFunc (trimLeftSpace t) with
  | none =>
    simp only [scanGotRaceOperationHeader, hp] at h
    obtain rfl := Option.some.inj h
    exact hinv
  | some pr =>
    obtain ⟨c, err⟩ := pr
    cases hl : s.goroutines.getLast? with
    | none =>
      simp only [scanGotRaceOperationHeader, hp, hl] at h
      exact Option.noConfusion h
    | some cur =>
      simp only [scanGotRaceOperationHeader, hp, hl] at h
      obtain rfl := Option.some.inj h
      exact invOfNotNeedy (firstOK_setLast hinv.1 hl rfl) rfl

theorem scanGotRaceOperationFunc_inv {s : ScanState} {t : List Char}
    {r : ScanState × List Char × Option ScanErr}
    (hinv : scanInvariant s) (h : scanGotRaceOperationFunc s t = some r) :
    scanInvariant r.1 := by
  cases hl : s.goroutines.getLast? with
  | none =>
    simp only [scanGotRaceOperationFunc, hl] at h
    exact Option.noConfusion h
  | some cur =>
    cases hc : cur.signature.stack.calls.getLast? with
    | none =>
      simp only [scanGotRaceOperationFunc, hl, hc] at h
      exact Option.noConfusion h
    | some lastCall =>
      rcases hp : parseFile lastCall t with ⟨found, c2, e2⟩
      cases e2 with
      | some e =>
        simp only [scanGotRaceOperationFunc, hl, hc, hp] at h
        obtain rfl := Option.some.inj h
        exact hinv
      | none =>
        cases found with
        | false =>
          simp only [scanGotRaceOperationFunc, hl, hc, hp] at h
          obtain rfl := Option.some.inj h
          exact hinv
        | true =>
          simp only [scanGotRaceOperationFunc, hl, hc, hp] at h
          obtain rfl := Option.some.inj h
          exact invOfNeedy (firstOK_setLast hinv.1 hl rfl) (setLast_ne_nil _ _)

theorem scanGotRaceOperationFile_inv {s : ScanState} {t : List Char}
    {r : ScanState × List Char × Option ScanErr}
    (hinv : scanInvariant s) (hne : s.goroutines ≠ [])
    (h : scanGotRaceOperationFile s t = some r) : scanInvariant r.1 := by
  cases hte : t.isEmpty with
  | true =>
    simp only [scanGotRaceOperationFile, hte, if_true] at h
    obtain rfl := Option.some.inj h
    exact invOfNeedy hinv.1 hne
  | false =>
    cases hp : parseFunc (trimLeftSpace t) with
    | none =>
      simp only [scanGotRaceOperationFile, hte, Bool.false_eq_true, if_false, hp] at h
      obtain rfl := Option.some.inj h
      exact hinv
    | some pr =>
      obtain ⟨c, err⟩ := pr
      cases hl : s.goroutines.getLast? with
      | none =>
        simp only [scanGotRaceOperationFile, hte, Bool.false_eq_true, if_false,
          hp, hl] at h
        exact Option.noConfusion h
      | some cur =>
        simp only [scanGotRaceOperationFile, hte, Bool.false_eq_true, if_false,
          hp, hl] at h
        obtain rfl := Option.some.inj h
        exact invOfNotNeedy (firstOK_setLast hinv.1 hl rfl) rfl

theorem scanBetweenRaceGoroutinesBody_inv {s : ScanState} {t : List Char}
    {r : ScanState × List Char × Option ScanErr}
    (hinv : scanInvariant s) (h : scanBetweenRaceGoroutinesBody s t = some r) :
    scanInvariant r.1 := by
  cases hm : reRaceGoroutine.amatch t with
  | none =>
    simp only [scanBetweenRaceGoroutinesBody, hm] at h
    obtain rfl := Option.some.inj h
    exact hinv
  | some caps =>
    cases hi : atou (capGet caps 1) with
    | none =>
      simp only [scanBetweenRaceGoroutinesBody, hm, hi] at h
      obtain rfl := Option.some.inj h
      exact hinv
    | some id =>
      cases hf : s.goroutines.findIdx? (fun g => g.id = id) with
      | none =>
        simp only [scanBetweenRaceGoroutinesBody, hm, hi, hf] at h
        obtain rfl := Option.some.inj h
        exact hinv
      | some i =>
        cases hg : s.goroutines.get? i with
        | none =>
          simp only [scanBetweenRaceGoroutinesBody, hm, hi, hf, hg] at h
          exact Option.noConfusion h
        | some g =>
          simp only [scanBetweenRaceGoroutinesBody, hm, hi, hf, hg] at h
          obtain rfl := Option.some.inj h
          exact invOfNotNeedy (firstOK_set hinv.1 hg rfl) rfl

theorem scanBetweenRaceOperations_inv {s : ScanState} {t : List Char}
    {r : ScanState × List Char × Option ScanErr}
    (hinv : scanInvariant s) (hne : s.goroutines ≠ [])
    (h : scanBetweenRaceOperations s t = some r) : scanInvariant r.1 := by
  cases hm : reRacePreviousOperationHeader.amatch t with
  | none =>
    have h2 : scanBetweenRaceGoroutinesBody s t = some r := by
      simp only [scanBetweenRaceOperations, hm] at h
      exact h
    exact scanBetweenRaceGoroutinesBody_inv hinv h2
  | some caps =>
    cases ha : parseUint0 (capGet caps 2) with
    | none =>
      simp only [scanBetweenRaceOperations, hm, ha] at h
      obtain rfl := Option.some.inj h
      exact hinv
    | some addr =>
      cases hi : atou (capGet caps 3) with
      | none =>
        simp only [scanBetweenRaceOperations, hm, ha, hi] at h
        obtain rfl := Option.some.inj h
        exact hinv
      | some id =>
        simp only [scanBetweenRaceOperations, hm, ha, hi] at h
        obtain rfl := Option.some.inj h
        exact invOfNotNeedy
          (firstOK_append hinv.1 (isEmpty_false_of_ne_nil hne).symm) rfl

theorem scanGotRaceGoroutineHeaderBody_inv {s : ScanState} {t : List Char}
    {r : ScanState × List Char × Option ScanErr}
    (hinv : scanInvariant s) (h : scanGotRaceGoroutineHeaderBody s t = some r) :
    scanInvariant r.1 := by
  cases hp : parseFunc (trimLeftSpace t) with
  | none =>
    simp only [scanGotRaceGoroutineHeaderBody, hp] at h
    obtain rfl := Option.some.inj h
    exact hinv
  | some pr =>
    obtain ⟨c, err⟩ := pr
    cases hg : s.goroutines.get? s.goroutineIndex with
    | none =>
      simp only [scanGotRaceGoroutineHeaderBody, hp, hg] at h
      exact Option.noConfusion h
    | some g =>
      simp only [scanGotRaceGoroutineHeaderBody, hp, hg] at h
      obtain rfl := Option.some.inj h
      exact invOfNotNeedy (firstOK_set hinv.1 hg rfl) rfl

theorem scanGotRaceGoroutineFunc_inv {s : ScanState} {t : List Char}
    {r : ScanState × List Char × Option ScanErr}
    (hinv : scanInvariant s) (h : scanGotRaceGoroutineFunc s t = some r) :
    scanInvariant r.1 := by
  cases hg : s.goroutines.get? s.goroutineIndex with
  | none =>
    simp only [scanGotRaceGoroutineFunc, hg] at h
    exact Option.noConfusion h
  | some g =>
    cases hc : g.signature.createdBy.calls.getLast? with
    | none =>
      simp only [scanGotRaceGoroutineFunc, hg, hc] at h
      exact Option.noConfusion h
    | some lastCall =>
      rcases hp : parseFile lastCall t with ⟨found, c2, e2⟩
      cases e2 with
      | some e =>
        simp only [scanGotRaceGoroutineFunc, hg, hc, hp] at h
        obtain rfl := Option.some.inj h
        exact hinv
      | none =>
        cases found with
        | false =>
          simp only [scanGotRaceGoroutineFunc, hg, hc, hp] at h
          obtain rfl := Option.some.inj h
          exact hinv
        | true =>
          simp only [scanGotRaceGoroutineFunc, hg, hc, hp] at h
          obtain rfl := Option.some.inj h
          exact invOfNotNeedy (firstOK_set hinv.1 hg rfl) rfl

theorem scanGotRaceGoroutineFile_inv {s : ScanState} {t : List Char}
    {r : ScanState × List Char × Option ScanErr}
    (hinv : scanInvariant s) (h : scanGotRaceGoroutineFile s t = some r) :
    scanInvariant r.1 := by
  cases hte : t.isEmpty with
  | true =>
    simp only [scanGotRaceGoroutineFile, hte, if_true] at h
    obtain rfl := Option.some.inj h
    exact invOfNotNeedy hinv.1 rfl
  | false =>
    by_cases hfoot : t = raceHeaderFooter
    · simp only [scanGotRaceGoroutineFile, hte, Bool.false_eq_true, if_false,
        hfoot, eq_self_iff_true, if_true] at h
      obtain rfl := Option.some.inj h
      exact invOfNotNeedy hinv.1 rfl
    · have h2 : scanGotRaceGoroutineHeaderBody s t = some r := by
        simp only [scanGotRaceGoroutineFile, hte, Bool.false_eq_true, if_false,
          hfoot] at h
        exact h
      exact scanGotRaceGoroutineHeaderBody_inv hinv h2

end stack

namespace stack

theorem scanSwitch_inv {s : ScanState} {l t : List Char}
    {r : ScanState × List Char × Option ScanErr}
    (hinv : scanInvariant s) (h : scanSwitch s l t = some r) : scanInvariant r.1 := by
  rw [scanSwitch] at h
  revert h
  cases hst : s.state <;> intro h
  case normal => exact scanNormalBody_inv hinv h
  case betweenRoutine => exact scanNormalBody_inv hinv h
  case gotRoutineHeader => exact scanGotRoutineHeader_inv hinv h
  case gotFunc => exact scanGotFunc_inv hinv h
  case gotCreated => exact scanGotCreated_inv hinv h
  case gotFileFunc => exact scanGotFileFunc_inv hinv h
  case gotFileCreated => exact scanGotFileCreated_inv hinv h
  case gotUnavail => exact scanGotUnavail_inv hinv h
  case gotRaceHeader1 => exact scanGotRaceHeader1_inv hinv h
  case gotRaceHeader2 => exact scanGotRaceHeader2_inv hinv h
  case gotRaceOperationHeader => exact scanGotRaceOperationHeader_inv hinv h
  case gotRaceOperationFunc => exact scanGotRaceOperationFunc_inv hinv h
  case gotRaceOperationFile =>
    exact scanGotRaceOperationFile_inv hinv (hinv.2 (by rw [hst]; rfl)) h
  case betweenRaceOperations =>
    exact scanBetweenRaceOperations_inv hinv (hinv.2 (by rw [hst]; rfl)) h
  case gotRaceGoroutineHeader => exact scanGotRaceGoroutineHeaderBody_inv hinv h
  case gotRaceGoroutineFunc => exact scanGotRaceGoroutineFunc_inv hinv h
  case gotRaceGoroutineFile => exact scanGotRaceGoroutineFile_inv hinv h
  case betweenRaceGoroutines => exact scanBetweenRaceGoroutinesBody_inv hinv h

theorem scanAfterTrim_inv {s : ScanState} {l t : List Char}
    {r : ScanState × List Char × Option ScanErr}
    (hinv : scanInvariant s) (h : scanAfterTrim s l t = some r) : scanInvariant r.1 := by
  rw [scanAfterTrim] at h
  split at h
  · exact scanSwitch_inv hinv h
  · split at h
    · exact scanSwitch_inv hinv h
    · obtain rfl := Option.some.inj h
      exact invOfNotNeedy hinv.1 rfl

theorem scan_inv {s : ScanState} {l : List Char}
    {r : ScanState × List Char × Option ScanErr}
    (hinv : scanInvariant s) (h : scan s l = some r) : scanInvariant r.1 := by
  rw [scan] at h
  split at h
  · exact scanAfterTrim_inv hinv h
  · split at h
    · exact scanAfterTrim_inv hinv h
    · split at h
      · obtain rfl := Option.some.inj h
        exact hinv
      · exact scanAfterTrim_inv hinv h

theorem finishEOF_inv {s : ScanState} {out : List Char} {gs : List Goroutine}
    {err : Option ScanErr} {o : List Char}
    (hinv : scanInvariant s) (h : finishEOF s out = .ok gs err o) : firstOK gs := by
  rw [finishEOF] at h
  cases hs : scan s [] with
  | none =>
    rw [hs] at h
    exact DumpResult.noConfusion h
  | some r2 =>
    obtain ⟨s2, junk, serr⟩ := r2
    rw [hs] at h
    have hinv2 := scan_inv hinv hs
    cases serr with
    | some e =>
      obtain ⟨rfl, rfl, rfl⟩ := DumpResult.ok.inj h
      exact hinv2.1
    | none =>
      obtain ⟨rfl, rfl, rfl⟩ := DumpResult.ok.inj h
      exact hinv2.1

theorem parseDumpGo_inv :
    ∀ (fuel : Nat) (input : List Char) (s : ScanState) (w : Bool) (out : List Char)
      {gs : List Goroutine} {err : Option ScanErr} {o : List Char},
      scanInvariant s → parseDumpGo fuel input s w out = .ok gs err o →
      firstOK gs := by
  intro fuel
  induction fuel with
  | zero =>
    intro input s w out gs err o hinv h
    cases input with
    | nil =>
      rw [parseDumpGo] at h
      exact finishEOF_inv hinv h
    | cons c cs =>
      rw [parseDumpGo] at h
      exact finishEOF_inv hinv h
  | succ fuel ih =>
    intro input s w out gs err o hinv h
    cases input with
    | nil =>
      rw [parseDumpGo] at h
      exact finishEOF_inv hinv h
    | cons c cs =>
      rw [parseDumpGo] at h
      split at h
      rename_i slice rerr hrs
      split at h
      · exact ih _ _ _ _ hinv h
      · cases hsc : scan s slice with
        | none =>
          rw [hsc] at h
          exact DumpResult.noConfusion h
        | some r2 =>
          obtain ⟨s2, junk, serr⟩ := r2
          rw [hsc] at h
          have hinv2 := scan_inv hinv hsc
          cases serr with
          | some e =>
            obtain ⟨rfl, rfl, rfl⟩ := DumpResult.ok.inj h
            exact hinv2.1
          | none =>
            cases rerr with
            | none => exact ih _ _ _ _ hinv2 h
            | some re =>
              cases re with
              | eof =>
                obtain ⟨rfl, rfl, rfl⟩ := DumpResult.ok.inj h
                exact hinv2.1
              | bufferFull => exact ih _ _ _ _ hinv2 h

theorem parseDump_firstOK {input : List Char} {gs : List Goroutine}
    {err : Option ScanErr} {o : List Char}
    (h : parseDump input = .ok gs err o) : firstOK gs := by
  rw [parseDump] at h
  exact parseDumpGo_inv input.length input ⟨[], .normal, [], 0⟩ false [] (by decide) h

end stack

/-- C10: the `First` flag discipline.  (1) `firstOK` says exactly that the
flag is set on a routine iff it sits at index 0 of the list; (2) the
invariant — `firstOK` plus nonemptiness of the list in the two states of
the race sub-machine that extend an existing report — is preserved by every
single scan step, including all race-detector states; (3) hence every
routine list `parseDump` returns satisfies `firstOK`, and in particular at
most one routine ever carries the flag. -/
theorem claim_C10 :
    (∀ gs : List stack.Goroutine, stack.firstOK gs ↔
        ∀ i g, gs.get? i = some g → (g.first = true ↔ i = 0)) ∧
    (∀ (s : stack.ScanState) (line : List Char)
        (r : stack.ScanState × List Char × Option stack.ScanErr),
        stack.scanInvariant s → stack.scan s line = some r →
        stack.scanInvariant r.1) ∧
    (∀ (input : List Char) (gs : List stack.Goroutine)
        (err : Option stack.ScanErr) (out : List Char),
        stack.parseDump input = .ok gs err out →
        stack.firstOK gs ∧ (gs.filter (fun g => g.first)).length ≤ 1) := by
  refine ⟨stack.firstOK_iff_get, ?_, ?_⟩
  · exact fun s line r hinv h => stack.scan_inv hinv h
  · intro input gs err out h
    exact ⟨stack.parseDump_firstOK h,
      stack.firstOK_filter_le_one (stack.parseDump_firstOK h)⟩

/-- Witness for C10: scanning the header line `goroutine 1 [running]:` from
the initial state preserves the invariant, and the routine list `parseDump`
returns for that input satisfies the `First` discipline. -/
theorem claim_C10_witness :
    stack.scanInvariant ⟨[c10routine], .gotRoutineHeader, [], 0⟩ ∧
    stack.firstOK [c10routine] ∧
    ([c10routine].filter (fun g => g.first)).length ≤ 1 :=
  ⟨claim_C10.2.1 ⟨[], .normal, [], 0⟩ "goroutine 1 [running]:\n".data
      (⟨[c10routine], .gotRoutineHeader, [], 0⟩, [], none) (by decide) (by decide),
    claim_C10.2.2 "goroutine 1 [running]:\n".data [c10routine]
      (some (.expectedFunc [])) [] (by decide)⟩

/-! ## Grouping lemmas for aggregation (C7) -/

namespace cs

theorem keys_insertGroup (gm : List (List Char × List HRoutine)) (k : List Char)
    (r : HRoutine) :
    (insertGroup gm k r).map Prod.fst =
      if k ∈ gm.map Prod.fst then gm.map Prod.fst else gm.map Prod.fst ++ [k] := by
  induction gm with
  | nil => simp [insertGroup]
  | cons e rest ih =>
    obtain ⟨k0, rs0⟩ := e
    rw [insertGroup]
    by_cases hk : k0 = k
    · rw [if_pos hk]
      have hmem : k ∈ ((k0, rs0) :: rest).map Prod.fst := by simp [hk]
      rw [if_pos hmem]
      simp
    · rw [if_neg hk, List.map_cons, ih, List.map_cons]
      by_cases hmem : k ∈ rest.map Prod.fst
      · rw [if_pos hmem, if_pos (by simp [hmem])]
      · have hmem2 : k ∉ (k0, rs0).1 :: rest.map Prod.fst := by
          simp only [List.mem_cons]
          rintro (h | h)
          · exact hk h.symm
          · exact hmem h
        rw [if_neg hmem, if_neg hmem2]
        simp

theorem keys_nodup_insertGroup {gm : List (List Char × List HRoutine)} {k : List Char}
    {r : HRoutine} (h : (gm.map Prod.fst).Nodup) :
    ((insertGroup gm k r).map Prod.fst).Nodup := by
  rw [keys_insertGroup]
  split
  · exact h
  · rename_i hk
    rw [List.nodup_append]
    exact ⟨h, List.nodup_singleton k, by simpa using hk⟩

theorem foldl_insertGroup_keys_nodup :
    ∀ (rs : List HRoutine) (gm : List (List Char × List HRoutine)),
      (gm.map Prod.fst).Nodup →
      ((rs.foldl (fun gm r => insertGroup gm (hash r) r) gm).map Prod.fst).Nodup := by
  intro rs
  induction rs with
  | nil => exact fun gm h => h
  | cons r rest ih => exact fun gm h => ih _ (keys_nodup_insertGroup h)

theorem groupsOf_keys_nodup (rs : List HRoutine) :
    ((groupsOf rs).map Prod.fst).Nodup :=
  foldl_insertGroup_keys_nodup rs [] (by simp)

theorem filterMap_find_keys :
    ∀ {gm : List (List Char × List HRoutine)}, (gm.map Prod.fst).Nodup →
      (gm.map Prod.fst).filterMap
          (fun k => (gm.find? (fun e => e.1 = k)).map (fun e => e.2)) =
        gm.map Prod.snd := by
  intro gm hn
  induction gm with
  | nil => rfl
  | cons e rest ih =>
    obtain ⟨k0, v0⟩ := e
    rw [List.map_cons, List.filterMap_cons]
    have hf0 : ((k0, v0) :: rest).find? (fun e => e.1 = k0) = some (k0, v0) :=
      List.find?_cons_of_pos _ (by simp)
    rw [hf0]
    have hcong : ∀ k ∈ rest.map Prod.fst,
        (((k0, v0) :: rest).find? (fun e => e.1 = k)).map (fun e => e.2) =
          (rest.find? (fun e => e.1 = k)).map (fun e => e.2) := by
      intro k hk
      have hne : k0 ≠ k := fun hq => (List.nodup_cons.mp hn).1 (hq ▸ hk)
      rw [List.find?_cons_of_neg _ (by simp [hne])]
    rw [List.filterMap_congr hcong, ih (List.nodup_cons.mp hn).2]
    rfl

theorem arranged_perm {rs : List HRoutine} {ord : List (List Char)}
    (hp : ord.Perm ((groupsOf rs).map Prod.fst)) :
    (ord.filterMap
        (fun k => ((groupsOf rs).find? (fun e => e.1 = k)).map (fun e => e.2))).Perm
      ((groupsOf rs).map Prod.snd) := by
  have h1 := hp.filterMap
    (fun k => ((groupsOf rs).find? (fun e => e.1 = k)).map (fun e => e.2))
  rw [filterMap_find_keys (groupsOf_keys_nodup rs)] at h1
  exact h1

end cs

/-- C7 counterexample: aggregation is *not* a deterministic function of the
routine list alone, and ties are *not* broken by first-seen order — the
bucket order inherits Go's randomized map-iteration order on equal-size
buckets.  Two singleton groups (a tie) come out in whichever order the map
enumeration `ord` presents them: both enumerations below are permutations
of the group keys, yet the outputs differ, and the second one violates
first-seen order. -/
theorem claim_C7_counterexample :
    [cs.hash c7r1, cs.hash c7r2].Perm ((cs.groupsOf [c7r1, c7r2]).map Prod.fst) ∧
    [cs.hash c7r2, cs.hash c7r1].Perm ((cs.groupsOf [c7r1, c7r2]).map Prod.fst) ∧
    cs.writeAggBuckets [c7r1, c7r2] [cs.hash c7r1, cs.hash c7r2] = [[c7r1], [c7r2]] ∧
    cs.writeAggBuckets [c7r1, c7r2] [cs.hash c7r2, cs.hash c7r1] = [[c7r2], [c7r1]] := by
  refine ⟨by decide, by decide, by decide, by decide⟩

/-- C7 (amended): for every routine list and every map-enumeration order
(any permutation of the group keys), the buckets come out sorted by
descending member count, and they are exactly the hash-groups of the
routine list up to order; only the order of equal-size buckets depends on
the enumeration. -/
theorem claim_C7 :
    ∀ (rs : List cs.HRoutine) (ord : List (List Char)),
      ord.Perm ((cs.groupsOf rs).map Prod.fst) →
      (cs.writeAggBuckets rs ord).Pairwise
        (fun a b => b.length ≤ a.length) ∧
      (cs.writeAggBuckets rs ord).Perm ((cs.groupsOf rs).map Prod.snd) := by
  intro rs ord hp
  haveI h1 : IsTotal (List cs.HRoutine) (fun a b => b.length ≤ a.length) :=
    ⟨fun a b => (Nat.le_total a.length b.length).symm⟩
  haveI h2 : IsTrans (List cs.HRoutine) (fun a b => b.length ≤ a.length) :=
    ⟨fun a b c hab hbc => le_trans hbc hab⟩
  constructor
  · rw [cs.writeAggBuckets]
    exact List.sorted_insertionSort _ _
  · rw [cs.writeAggBuckets]
    exact (List.perm_insertionSort _ _).trans (cs.arranged_perm hp)

/-- Witness for C7 at the concrete two-routine input and the first-seen
enumeration order. -/
theorem claim_C7_witness :
    (cs.writeAggBuckets [c7r1, c7r2] [cs.hash c7r1, cs.hash c7r2]).Pairwise
      (fun a b => b.length ≤ a.length) ∧
    (cs.writeAggBuckets [c7r1, c7r2] [cs.hash c7r1, cs.hash c7r2]).Perm
      ((cs.groupsOf [c7r1, c7r2]).map Prod.snd) :=
  claim_C7 [c7r1, c7r2] [cs.hash c7r1, cs.hash c7r2] (by decide)

/-! ## Canonicalization lemmas (C8) -/

namespace stack

theorem canonCall_anyPointer_eq {c1 c2 : Call} (h : PtrArgVariant c1 c2) :
    canonCall .anyPointer c1 = canonCall .anyPointer c2 := by
  obtain ⟨hf, hs, hl, he, pre, post, v1, v2, hv, h1, h2⟩ := h
  rw [canonCall, canonCall, hf, hs, hl, he, h1, h2]
  simp [canonArg]

theorem canonCall_exact (c : Call) : canonCall .exactLines c = c := by
  rw [canonCall]
  have hmap : ∀ l : List Arg, l.map (canonArg .exactLines) = l := by
    intro l
    induction l with
    | nil => rfl
    | cons a t ih =>
      rw [List.map_cons, ih]
      rfl
  rw [hmap]

theorem canonSig_exact (sig : Signature) : canonSig .exactLines sig = sig := by
  rw [canonSig]
  have hmap : ∀ l : List Call, l.map (canonCall .exactLines) = l := by
    intro l
    induction l with
    | nil => rfl
    | cons c t ih => rw [List.map_cons, ih, canonCall_exact]
  rw [hmap, hmap]

theorem insertBucket_nil (sig : Signature) (g : Goroutine) :
    insertBucket [] sig g = [⟨sig, [g.id], g.first⟩] := rfl

theorem insertBucket_cons_eq {b : Bucket} {bs : List Bucket} {sig : Signature}
    {g : Goroutine} (h : b.signature = sig) :
    insertBucket (b :: bs) sig g =
      { b with ids := b.ids ++ [g.id], first := b.first || g.first } :: bs := by
  rw [insertBucket, if_pos h]

theorem insertBucket_cons_ne {b : Bucket} {bs : List Bucket} {sig : Signature}
    {g : Goroutine} (h : b.signature ≠ sig) :
    insertBucket (b :: bs) sig g = b :: insertBucket bs sig g := by
  rw [insertBucket, if_neg h]

end stack

/-- C8: two routines identical except for the value of one decoded
pointer-shaped argument have the same canonical signature in
pointer-insensitive mode and different canonical signatures in exact mode;
aggregating exactly those two routines therefore yields one bucket holding
both IDs under `anyPointer` and two singleton buckets under `exactLines`. -/
theorem claim_C8 :
    ∀ g1 g2 : stack.Goroutine, stack.DiffersInOnePtrArg g1 g2 →
      stack.canonSig .anyPointer g1.signature = stack.canonSig .anyPointer g2.signature ∧
      stack.canonSig .exactLines g1.signature ≠ stack.canonSig .exactLines g2.signature ∧
      (∃ b : stack.Bucket,
        stack.Aggregate [g1, g2] .anyPointer = [b] ∧ b.ids = [g1.id, g2.id]) ∧
      (∃ b1 b2 : stack.Bucket,
        stack.Aggregate [g1, g2] .exactLines = [b1, b2] ∧
        b1.ids = [g1.id] ∧ b2.ids = [g2.id]) := by
  intro g1 g2 hd
  obtain ⟨hstate, hmin, hmax, hlock, helid, hcreated, pre, post, c1, c2, hvar, hs1, hs2⟩ := hd
  have hany : stack.canonSig .anyPointer g1.signature =
      stack.canonSig .anyPointer g2.signature := by
    rw [stack.canonSig, stack.canonSig, hstate, hmin, hmax, hlock, helid, hcreated,
      hs1, hs2, List.map_append, List.map_append, List.map_cons, List.map_cons,
      stack.canonCall_anyPointer_eq hvar]
  have hexact : g1.signature ≠ g2.signature := by
    intro hq
    have hcalls : pre ++ c1 :: post = pre ++ c2 :: post := by
      rw [← hs1, ← hs2, hq]
    have hc12 : c1 = c2 := (List.cons.inj (List.append_cancel_left hcalls)).1
    obtain ⟨hf, hsp, hl, he, pa, qa, v1, v2, hv, h1, h2⟩ := hvar
    have hvals : pa ++ (⟨v1, true⟩ : stack.Arg) :: qa = pa ++ ⟨v2, true⟩ :: qa := by
      rw [← h1, ← h2, hc12]
    exact hv (stack.Arg.mk.inj (List.cons.inj (List.append_cancel_left hvals)).1).1
  have hne : stack.canonSig .exactLines g1.signature ≠
      stack.canonSig .exactLines g2.signature := by
    rw [stack.canonSig_exact, stack.canonSig_exact]
    exact hexact
  refine ⟨hany, hne, ?_, ?_⟩
  · refine ⟨⟨stack.canonSig .anyPointer g1.signature, [g1.id, g2.id],
      g1.first || g2.first⟩, ?_, rfl⟩
    have hb : stack.bucketsOf [g1, g2] .anyPointer =
        [⟨stack.canonSig .anyPointer g1.signature, [g1.id, g2.id],
          g1.first || g2.first⟩] := by
      rw [stack.bucketsOf]
      simp only [List.foldl]
      rw [stack.insertBucket_nil, stack.insertBucket_cons_eq hany]
      rfl
    rw [stack.Aggregate, hb]
    rfl
  · refine ⟨⟨stack.canonSig .exactLines g1.signature, [g1.id], g1.first⟩,
      ⟨stack.canonSig .exactLines g2.signature, [g2.id], g2.first⟩, ?_, rfl, rfl⟩
    have hb : stack.bucketsOf [g1, g2] .exactLines =
        [⟨stack.canonSig .exactLines g1.signature, [g1.id], g1.first⟩,
         ⟨stack.canonSig .exactLines g2.signature, [g2.id], g2.first⟩] := by
      rw [stack.bucketsOf]
      simp only [List.foldl]
      rw [stack.insertBucket_nil, stack.insertBucket_cons_ne hne, stack.insertBucket_nil]
    rw [stack.Aggregate, hb]
    simp [List.insertionSort, List.orderedInsert]

/-- Witness for C8 at the concrete pair `c8g1`, `c8g2`. -/
theorem claim_C8_witness :
    stack.canonSig .anyPointer c8g1.signature = stack.canonSig .anyPointer c8g2.signature ∧
    stack.canonSig .exactLines c8g1.signature ≠ stack.canonSig .exactLines c8g2.signature ∧
    (∃ b : stack.Bucket,
      stack.Aggregate [c8g1, c8g2] .anyPointer = [b] ∧ b.ids = [c8g1.id, c8g2.id]) ∧
    (∃ b1 b2 : stack.Bucket,
      stack.Aggregate [c8g1, c8g2] .exactLines = [b1, b2] ∧
      b1.ids = [c8g1.id] ∧ b2.ids = [c8g2.id]) :=
  claim_C8 c8g1 c8g2 ⟨rfl, rfl, rfl, rfl, rfl, rfl, [], [], c8c1, c8c2,
    ⟨rfl, rfl, rfl, rfl, [], [], 0x20000, 0x30000, by decide, rfl, rfl⟩, rfl, rfl⟩

/-! ## Line-splitting and parser-state lemmas (C9) -/

namespace cs

theorem scanLinesGo_cons_ne (c : Char) (rest acc : List Char) (h : ¬ c = '\n') :
    scanLinesGo (c :: rest) acc = scanLinesGo rest (c :: acc) := by
  simp [scanLinesGo, h]

theorem getLast?_cons_cons_char (a b : Char) (l : List Char) :
    (a :: b :: l).getLast? = (b :: l).getLast? := rfl

theorem scanLinesGo_append :
    ∀ (A acc B : List Char), A.getLast? = some '\n' →
      scanLinesGo (A ++ B) acc = scanLinesGo A acc ++ scanLinesGo B [] := by
  intro A
  induction A with
  | nil => intro acc B h; simp at h
  | cons c rest ih =>
    intro acc B h
    cases rest with
    | nil =>
      have hc : c = '\n' := by simpa using h
      subst hc
      rw [List.cons_append, List.nil_append, scanLinesGo, scanLinesGo]
      rfl
    | cons d rest2 =>
      have h2 : (d :: rest2).getLast? = some '\n' := h
      by_cases hc : c = '\n'
      · subst hc
        rw [List.cons_append, scanLinesGo, scanLinesGo, ih [] B h2, List.cons_append]
      · rw [List.cons_append, scanLinesGo_cons_ne c _ _ hc,
          scanLinesGo_cons_ne c _ _ hc, ih (c :: acc) B h2]

theorem scanLines_append {A : List Char} (B : List Char) (h : A.getLast? = some '\n') :
    scanLines (A ++ B) = scanLines A ++ scanLines B := by
  rw [scanLines, scanLines, scanLines, scanLinesGo_append A [] B h]

theorem scanLinesGoTL_cons_ne (c : Char) (rest acc : List Char) (h : ¬ c = '\n') :
    scanLinesGoTL (c :: rest) acc =
      if maxScanTokenSize ≤ acc.length + 1 then ([], true)
      else scanLinesGoTL rest (c :: acc) := by
  simp [scanLinesGoTL, h]

theorem scanLinesGoTL_fst :
    ∀ (input acc : List Char), (scanLinesGoTL input acc).2 = false →
      (scanLinesGoTL input acc).1 = scanLinesGo input acc := by
  intro input
  induction input with
  | nil =>
    intro acc _
    by_cases he : acc.isEmpty = true <;> simp [scanLinesGoTL, scanLinesGo, he]
  | cons c rest ih =>
    intro acc h
    by_cases hc : c = '\n'
    · subst hc
      rw [scanLinesGoTL] at h ⊢
      rw [scanLinesGo]
      rw [ih [] h]
    · rw [scanLinesGoTL_cons_ne c rest acc hc] at h ⊢
      rw [scanLinesGo_cons_ne c rest acc hc]
      by_cases hcond : maxScanTokenSize ≤ acc.length + 1
      · rw [if_pos hcond] at h
        simp at h
      · rw [if_neg hcond] at h ⊢
        exact ih (c :: acc) h

theorem scanLinesGoTL_append :
    ∀ (A acc B : List Char), A.getLast? = some '\n' →
      (scanLinesGoTL A acc).2 = false →
      scanLinesGoTL (A ++ B) acc =
        ((scanLinesGoTL A acc).1 ++ (scanLinesGoTL B []).1, (scanLinesGoTL B []).2) := by
  intro A
  induction A with
  | nil => intro acc B h _; simp at h
  | cons c rest ih =>
    intro acc B h hf
    cases rest with
    | nil =>
      have hc : c = '\n' := by simpa using h
      subst hc
      rfl
    | cons d rest2 =>
      have h2 : (d :: rest2).getLast? = some '\n' := h
      by_cases hc : c = '\n'
      · subst hc
        have hf2 : (scanLinesGoTL (d :: rest2) []).2 = false := hf
        show ((dropCR acc.reverse) :: (scanLinesGoTL ((d :: rest2) ++ B) []).1,
            (scanLinesGoTL ((d :: rest2) ++ B) []).2) =
          ((scanLinesGoTL ('\n' :: d :: rest2) acc).1 ++ (scanLinesGoTL B []).1,
            (scanLinesGoTL B []).2)
        rw [ih [] B h2 hf2]
        rfl
      · have hcond : ¬ (maxScanTokenSize ≤ acc.length + 1) := by
          intro hq
          rw [scanLinesGoTL_cons_ne c (d :: rest2) acc hc, if_pos hq] at hf
          simp at hf
        have hf3 : (scanLinesGoTL (d :: rest2) (c :: acc)).2 = false := by
          rw [scanLinesGoTL_cons_ne c _ _ hc, if_neg hcond] at hf
          exact hf
        rw [List.cons_append, scanLinesGoTL_cons_ne c _ _ hc,
          scanLinesGoTL_cons_ne c _ _ hc, if_neg hcond, if_neg hcond]
        exact ih (c :: acc) B h2 hf3

theorem scanLinesGoTL_repeat (trace : List Char) (hlast : trace.getLast? = some '\n')
    (hshort : (scanLinesGoTL trace []).2 = false) :
    ∀ m : Nat, scanLinesGoTL (repeatChars trace m) [] =
      (scanLinesGo (repeatChars trace m) [], false) := by
  intro m
  induction m with
  | zero => rw [repeatChars]; rfl
  | succ m ih =>
    rw [repeatChars, scanLinesGoTL_append trace [] (repeatChars trace m) hlast hshort,
      ih, scanLinesGo_append trace [] (repeatChars trace m) hlast,
      scanLinesGoTL_fst trace [] hshort]

theorem parseLines_append :
    ∀ (xs ys : List (List Char)) (st : PState),
      parseLines (xs ++ ys) st =
        match parseLines xs st with
        | .error e => .error e
        | .ok st2 => parseLines ys st2 := by
  intro xs
  induction xs with
  | nil => intro ys st; rfl
  | cons x rest ih =>
    intro ys st
    rw [List.cons_append, parseLines, parseLines]
    cases hp : processLine st x with
    | error e => rfl
    | ok st2 => exact ih ys st2

theorem hr_append_ne_nil {R : List HRoutine} (R0 : List HRoutine) (h : R ≠ []) :
    R0 ++ R ≠ [] := by
  intro hc
  exact h (List.append_eq_nil.mp hc).2

theorem hr_isEmpty_false {R : List HRoutine} (h : R ≠ []) : R.isEmpty = false := by
  cases R with
  | nil => exact absurd rfl h
  | cons a b => rfl

theorem updateLast_ne_nil {R : List HRoutine} (f : HRoutine → HRoutine) (h : R ≠ []) :
    updateLast R f ≠ [] := by
  rw [updateLast]
  cases hl : R.getLast? with
  | none => exact h
  | some rr => simp

theorem updateLast_append {R : List HRoutine} (R0 : List HRoutine)
    (f : HRoutine → HRoutine) (h : R ≠ []) :
    updateLast (R0 ++ R) f = R0 ++ updateLast R f := by
  rw [updateLast, updateLast]
  cases R with
  | nil => exact absurd rfl h
  | cons r1 rrest =>
    cases hl : (r1 :: rrest).getLast? with
    | none => simp at hl
    | some rr =>
      rw [List.getLast?_append_of_ne_nil R0 h, hl,
        List.dropLast_append_of_ne_nil R0 h]
      simp only [List.append_assoc]

theorem header_processLine {l : List Char} (h : headerLine l = true)
    (R : List HRoutine) (flag : Bool) :
    processLine ⟨R, flag⟩ l = .ok ⟨R ++ [newRoutine l], false⟩ := by
  rw [headerLine] at h
  cases hs : startRuntimeStack.search l with
  | some caps => simp only [processLine, hs, newRoutine]
  | none =>
    rw [hs] at h
    cases hg : goroutineStart.search l with
    | some caps => simp only [processLine, hs, hg, newRoutine]
    | none =>
      rw [hg] at h
      simp at h

end cs

namespace cs

theorem processLine_shift {R : List HRoutine} {flag : Bool} {l : List Char} {st2 : PState}
    (R0 : List HRoutine) (hne : R ≠ []) (h : processLine ⟨R, flag⟩ l = .ok st2) :
    st2.routines ≠ [] ∧
    processLine ⟨R0 ++ R, flag⟩ l = .ok ⟨R0 ++ st2.routines, st2.createdByFound⟩ := by
  cases h1 : startRuntimeStack.search l with
  | some caps =>
    simp only [processLine, h1] at h ⊢
    obtain rfl := Except.ok.inj h
    refine ⟨by simp, ?_⟩
    simp only [List.append_assoc]
  | none =>
  cases h2 : goroutineStart.search l with
  | some caps =>
    simp only [processLine, h1, h2] at h ⊢
    obtain rfl := Except.ok.inj h
    refine ⟨by simp, ?_⟩
    simp only [List.append_assoc]
  | none =>
  cases h3 : callLine.search l with
  | some caps =>
    simp only [processLine, h1, h2, h3] at h ⊢
    rw [hr_isEmpty_false hne] at h
    rw [hr_isEmpty_false (hr_append_ne_nil R0 hne)]
    simp only [Bool.false_eq_true, if_false] at h ⊢
    obtain rfl := Except.ok.inj h
    refine ⟨updateLast_ne_nil _ hne, ?_⟩
    rw [updateLast_append R0 _ hne]
  | none =>
  cases h4 : createdByLine.search l with
  | some caps =>
    simp only [processLine, h1, h2, h3, h4] at h ⊢
    rw [hr_isEmpty_false hne] at h
    rw [hr_isEmpty_false (hr_append_ne_nil R0 hne)]
    simp only [Bool.false_eq_true, if_false] at h ⊢
    obtain rfl := Except.ok.inj h
    refine ⟨updateLast_ne_nil _ hne, ?_⟩
    rw [updateLast_append R0 _ hne]
  | none =>
  cases h5 : fileLine.search l with
  | none =>
    simp only [processLine, h1, h2, h3, h4, h5] at h ⊢
    obtain rfl := Except.ok.inj h
    exact ⟨hne, rfl⟩
  | some caps =>
    cases h6 : parseIntDec (capGet caps 2) with
    | none =>
      simp only [processLine, h1, h2, h3, h4, h5, h6] at h
      exact Except.noConfusion h
    | some n =>
      simp only [processLine, h1, h2, h3, h4, h5, h6] at h ⊢
      rw [hr_isEmpty_false hne] at h
      rw [hr_isEmpty_false (hr_append_ne_nil R0 hne)]
      simp only [Bool.false_eq_true, if_false] at h ⊢
      cases flag with
      | true =>
        simp only [if_true] at h ⊢
        obtain rfl := Except.ok.inj h
        refine ⟨updateLast_ne_nil _ hne, ?_⟩
        rw [updateLast_append R0 _ hne]
      | false =>
        simp only [Bool.false_eq_true, if_false] at h ⊢
        cases hl : R.getLast? with
        | none =>
          rw [hl] at h
          exact Except.noConfusion h
        | some r0 =>
          simp only [hl] at h
          simp only [List.getLast?_append_of_ne_nil R0 hne, hl]
          cases hse : r0.stack.isEmpty with
          | true =>
            simp only [hse, eq_self_iff_true, if_true] at h
            exact Except.noConfusion h
          | false =>
            simp only [hse, Bool.false_eq_true, if_false] at h ⊢
            obtain rfl := Except.ok.inj h
            refine ⟨updateLast_ne_nil _ hne, ?_⟩
            rw [updateLast_append R0 _ hne]

theorem parseLines_shift :
    ∀ (ls : List (List Char)) {R : List HRoutine} {flag : Bool} {st2 : PState}
      (R0 : List HRoutine), R ≠ [] →
      parseLines ls ⟨R, flag⟩ = .ok st2 →
      st2.routines ≠ [] ∧
      parseLines ls ⟨R0 ++ R, flag⟩ = .ok ⟨R0 ++ st2.routines, st2.createdByFound⟩ := by
  intro ls
  induction ls with
  | nil =>
    intro R flag st2 R0 hne h
    rw [parseLines] at h
    obtain rfl := Except.ok.inj h
    exact ⟨hne, rfl⟩
  | cons l rest ih =>
    intro R flag st2 R0 hne h
    rw [parseLines] at h ⊢
    cases hp : processLine ⟨R, flag⟩ l with
    | error e =>
      rw [hp] at h
      exact Except.noConfusion h
    | ok stm =>
      rw [hp] at h
      obtain ⟨hm_ne, hp2⟩ := processLine_shift R0 hne hp
      rw [hp2]
      exact ih R0 hm_ne h

end cs

namespace cs

theorem insertGroup_same (k : List Char) (rs0 : List HRoutine) (r : HRoutine) :
    insertGroup [(k, rs0)] k r = [(k, rs0 ++ [r])] := by
  rw [insertGroup, if_pos rfl]

theorem foldl_insert_replicate (r : HRoutine) :
    ∀ (m : Nat) (rs0 : List HRoutine),
      (List.replicate m r).foldl (fun gm x => insertGroup gm (hash x) x)
          [(hash r, rs0)] =
        [(hash r, rs0 ++ List.replicate m r)] := by
  intro m
  induction m with
  | zero => intro rs0; simp
  | succ m ih =>
    intro rs0
    rw [List.replicate_succ, List.foldl_cons, insertGroup_same, ih]
    simp

theorem groupsOf_replicate (r : HRoutine) (n : Nat) (h : 1 ≤ n) :
    groupsOf (List.replicate n r) = [(hash r, List.replicate n r)] := by
  obtain ⟨m, rfl⟩ : ∃ m, n = m + 1 := ⟨n - 1, by omega⟩
  rw [groupsOf, List.replicate_succ, List.foldl_cons]
  rw [show insertGroup [] (hash r) r = [(hash r, [r])] from rfl]
  rw [foldl_insert_replicate]
  rfl

theorem writeAggBuckets_replicate (r : HRoutine) (n : Nat) (h : 1 ≤ n)
    (ord : List (List Char)) (hp : ord.Perm [hash r]) :
    writeAggBuckets (List.replicate n r) ord = [List.replicate n r] := by
  have hord : ord = [hash r] := List.Perm.eq_singleton hp
  subst hord
  rw [writeAggBuckets, groupsOf_replicate r n h]
  simp [List.find?, List.insertionSort, List.orderedInsert]

end cs

/-- C9: parsing a newline-terminated trace that starts with a routine
header and parses to the single routine `r`, repeated `n ≥ 1` times,
yields `n` copies of `r`; those `n` routines share one hash group, and
aggregation returns exactly one bucket with `n` members — not `n` buckets
of size 1 — for every map-enumeration order of the (single) group key. -/
theorem claim_C9 :
    ∀ (trace l0 : List Char) (ls : List (List Char)) (r : cs.HRoutine) (f : Bool)
      (n : Nat),
      1 ≤ n →
      trace.getLast? = some '\n' →
      cs.scanLinesTL trace = (l0 :: ls, false) →
      cs.headerLine l0 = true →
      cs.parseLines (l0 :: ls) ⟨[], false⟩ = .ok ⟨[r], f⟩ →
      cs.parse (repeatChars trace n) = .ok (List.replicate n r) ∧
      cs.groupsOf (List.replicate n r) = [(cs.hash r, List.replicate n r)] ∧
      ∀ ord, ord.Perm [cs.hash r] →
        cs.writeAggBuckets (List.replicate n r) ord = [List.replicate n r] := by
  intro trace l0 ls r f n hn hlast hTL hhead hparse
  have hshort : (cs.scanLinesGoTL trace []).2 = false := by
    rw [show cs.scanLinesGoTL trace [] = (l0 :: ls, false) from hTL]
  have hlines : cs.scanLines trace = l0 :: ls := by
    have h1 := cs.scanLinesGoTL_fst trace [] hshort
    rw [show cs.scanLinesGoTL trace [] = (l0 :: ls, false) from hTL] at h1
    exact h1.symm
  have hnr : cs.parseLines ls ⟨[cs.newRoutine l0], false⟩ = .ok ⟨[r], f⟩ := by
    rw [cs.parseLines, cs.header_processLine hhead] at hparse
    exact hparse
  have hcopy : ∀ (R0 : List cs.HRoutine) (f0 : Bool),
      cs.parseLines (l0 :: ls) ⟨R0, f0⟩ = .ok ⟨R0 ++ [r], f⟩ := by
    intro R0 f0
    rw [cs.parseLines, cs.header_processLine hhead]
    exact (cs.parseLines_shift ls R0 (by simp) hnr).2
  have hrep : ∀ (m : Nat) (R0 : List cs.HRoutine) (f0 : Bool), ∃ ff,
      cs.parseLines (cs.scanLines (repeatChars trace m)) ⟨R0, f0⟩ =
        .ok ⟨R0 ++ List.replicate m r, ff⟩ := by
    intro m
    induction m with
    | zero =>
      intro R0 f0
      refine ⟨f0, ?_⟩
      rw [repeatChars]
      simp [cs.scanLines, cs.scanLinesGo, cs.parseLines]
    | succ m ih =>
      intro R0 f0
      obtain ⟨ff, hff⟩ := ih (R0 ++ [r]) f
      refine ⟨ff, ?_⟩
      rw [repeatChars, cs.scanLines_append _ hlast, hlines, cs.parseLines_append,
        hcopy R0 f0]
      show cs.parseLines (cs.scanLines (repeatChars trace m)) ⟨R0 ++ [r], f⟩ =
        .ok ⟨R0 ++ List.replicate (m + 1) r, ff⟩
      rw [hff, List.append_assoc, List.replicate_succ]
      rfl
  refine ⟨?_, cs.groupsOf_replicate r n hn,
    fun ord hp => cs.writeAggBuckets_replicate r n hn ord hp⟩
  obtain ⟨ff, hff⟩ := hrep n [] false
  have hTLn := cs.scanLinesGoTL_repeat trace hlast hshort n
  have h1n : (cs.scanLinesTL (repeatChars trace n)).1 =
      cs.scanLines (repeatChars trace n) := by
    rw [show cs.scanLinesTL (repeatChars trace n) =
      (cs.scanLines (repeatChars trace n), false) from hTLn]
  have h2n : (cs.scanLinesTL (repeatChars trace n)).2 = false := by
    rw [show cs.scanLinesTL (repeatChars trace n) =
      (cs.scanLines (repeatChars trace n), false) from hTLn]
  rw [cs.parse, h1n, hff, h2n]
  rfl

/-- Witness for C9: the one-routine trace `c9trace` repeated twice parses
to two copies of `c9r` and aggregates to a single two-member bucket. -/
theorem claim_C9_witness :
    cs.parse (repeatChars c9trace 2) = .ok (List.replicate 2 c9r) ∧
    cs.groupsOf (List.replicate 2 c9r) = [(cs.hash c9r, List.replicate 2 c9r)] ∧
    cs.writeAggBuckets (List.replicate 2 c9r) [cs.hash c9r] = [List.replicate 2 c9r] := by
  have h := claim_C9 c9trace "goroutine 7 [running]:".data
    ["main.f()".data, "\t/a.go:10 +0x10".data] c9r false 2
    (by decide) (by decide) (by decide) (by decide) (by decide)
  exact ⟨h.1, h.2.1, h.2.2 [cs.hash c9r] (List.Perm.refl _)⟩
